import Mathlib

/-!
Verification of the stock-backtest engine.

The engine under study aligns per-ticker daily price series onto a common
calendar (`createAlignedPriceData`), derives rebalancing trigger dates
(`getRebalancingDates`), simulates share-based wealth evolution
(`runPortfolioSimulation`, `runSingleAssetSimulation`) and computes risk/return
statistics (`calculateMetrics`, `variance_p`, `covariance`).

Modelling conventions:
* ISO date strings `YYYY-MM-DD` are modelled by `CalDate` triples; lexicographic
  comparison of well-formed ISO strings coincides with the lexicographic order
  on (year, month, day), which is the order given to `CalDate`.
* JavaScript numbers are modelled by `ℚ`.  The two irrational primitives used
  by the metrics code, `Math.pow` (with fractional exponent, for CAGR) and
  `Math.sqrt`, are passed in as abstract function parameters `powf` and
  `sqrtf`; every statement proved here holds for all choices of these
  parameters, which is exactly the structural content of the specification.
* A JavaScript `Map` keyed by date strings is modelled by an association list
  `List (CalDate × ℚ)` with first-match lookup (keys of a `Map` are unique).
* A JavaScript `Set` of dates is modelled by the list of elements inserted,
  read up to membership.
-/

/-- The `EPSILON` constant of the source (1e-9). -/
def EPSILON : ℚ := 1 / 1000000000

/-- The `TRADING_DAYS_PER_YEAR` constant of the source. -/
def TRADING_DAYS_PER_YEAR : ℚ := 252

/-- The `RISK_FREE_RATE` constant of the source. -/
def RISK_FREE_RATE : ℚ := 0

/-- A calendar day, standing for a well-formed ISO `YYYY-MM-DD` string.
`month` is 1-based as in the string; the source's `Date.getUTCMonth()`
is `month - 1`. -/
structure CalDate where
  year : Nat
  month : Nat
  day : Nat
deriving DecidableEq, Repr

/-- Lexicographic `≤` on dates: the order of ISO strings. -/
def CalDate.le (a b : CalDate) : Prop :=
  a.year < b.year ∨
    (a.year = b.year ∧ (a.month < b.month ∨ (a.month = b.month ∧ a.day ≤ b.day)))

/-- Lexicographic `<` on dates. -/
def CalDate.lt (a b : CalDate) : Prop :=
  a.year < b.year ∨
    (a.year = b.year ∧ (a.month < b.month ∨ (a.month = b.month ∧ a.day < b.day)))

instance CalDate.decLe : DecidableRel CalDate.le := fun a b => by
  unfold CalDate.le; infer_instance

instance CalDate.decLt : DecidableRel CalDate.lt := fun a b => by
  unfold CalDate.lt; infer_instance

theorem CalDate.le_refl (a : CalDate) : CalDate.le a a := by
  unfold CalDate.le; omega

theorem CalDate.le_trans {a b c : CalDate} (hab : CalDate.le a b)
    (hbc : CalDate.le b c) : CalDate.le a c := by
  unfold CalDate.le at hab hbc ⊢; omega

theorem CalDate.le_antisymm {a b : CalDate} (h1 : CalDate.le a b)
    (h2 : CalDate.le b a) : a = b := by
  cases a; cases b
  unfold CalDate.le at h1 h2
  dsimp only at h1 h2
  simp only [CalDate.mk.injEq]
  omega

theorem CalDate.le_total (a b : CalDate) : CalDate.le a b ∨ CalDate.le b a := by
  unfold CalDate.le; omega

theorem CalDate.lt_iff (a b : CalDate) :
    CalDate.lt a b ↔ CalDate.le a b ∧ ¬ CalDate.le b a := by
  unfold CalDate.le CalDate.lt; omega

instance : LinearOrder CalDate where
  le := CalDate.le
  lt := CalDate.lt
  le_refl := CalDate.le_refl
  le_trans := fun _ _ _ => CalDate.le_trans
  le_antisymm := fun _ _ => CalDate.le_antisymm
  le_total := CalDate.le_total
  lt_iff_le_not_le := CalDate.lt_iff
  decidableLE := CalDate.decLe
  decidableEq := inferInstance

theorem CalDate.le_def (a b : CalDate) :
    a ≤ b ↔ (a.year < b.year ∨
      (a.year = b.year ∧ (a.month < b.month ∨ (a.month = b.month ∧ a.day ≤ b.day)))) :=
  Iff.rfl

theorem CalDate.lt_def (a b : CalDate) :
    a < b ↔ (a.year < b.year ∨
      (a.year = b.year ∧ (a.month < b.month ∨ (a.month = b.month ∧ a.day < b.day)))) :=
  Iff.rfl

/-- A per-ticker price series: the `Map<string, number>` of the source,
as an association list with first-match lookup. -/
abbrev PriceMap : Type := List (CalDate × ℚ)

/-- `Map.get(date)`: first-match lookup in a price series. -/
def lookupDate (m : PriceMap) (d : CalDate) : Option ℚ :=
  match m with
  | [] => none
  | (d0, p) :: rest => if d0 = d then some p else lookupDate rest d

/-- The raw input mapping ticker → price series
(`rawPriceData: { [ticker: string]: Map<string, number> }`). -/
abbrev RawPriceData : Type := List (String × PriceMap)

/-- `rawPriceData[ticker]`: first-match lookup of a ticker's series. -/
def lookupTicker (raw : RawPriceData) (t : String) : Option PriceMap :=
  match raw with
  | [] => none
  | (t0, m) :: rest => if t0 = t then some m else lookupTicker rest t

/-- `rawPriceData[ticker]?.get(date) ?? null` of the source. -/
def priceOn (raw : RawPriceData) (t : String) (d : CalDate) : Option ℚ :=
  (lookupTicker raw t).bind (fun m => lookupDate m d)

/-- `Object.keys(rawPriceData)`. -/
def tickersOf (raw : RawPriceData) : List String := raw.map Prod.fst

/-- The union of all dates across all series (the `allDates` set of
`createAlignedPriceData`), with duplicates removed. -/
def allDatesOf (raw : RawPriceData) : List CalDate :=
  (raw.flatMap (fun e => e.2.map Prod.fst)).dedup

/-- Output of the aligner: the aligned calendar and, per ticker, the
equal-length aligned price list. -/
structure AlignedData where
  dates : List CalDate
  prices : List (String × List ℚ)

/-- `createAlignedPriceData` of the source: union of all dates, filtered to the
request window, sorted ascending; a date is kept when every ticker of the
input mapping has a price on it, and each kept date contributes each ticker's
price to that ticker's aligned list.  The window endpoints `startD`/`endD`
stand for the source's `startDateStr`/`endDateStr` bounds, compared as
strings. -/
def createAlignedPriceData (raw : RawPriceData) (startD endD : CalDate) :
    AlignedData :=
  let sortedDates :=
    List.insertionSort (· ≤ ·)
      ((allDatesOf raw).filter (fun d => startD ≤ d ∧ d ≤ endD))
  let tickers := tickersOf raw
  let alignedDates :=
    sortedDates.filter (fun d => tickers.all (fun t => (priceOn raw t d).isSome))
  { dates := alignedDates
    prices :=
      tickers.map (fun t => (t, alignedDates.map (fun d => (priceOn raw t d).getD 0))) }

/-- The four rebalancing periods of the source. -/
inductive Period where
  | never
  | annually
  | quarterly
  | monthly
deriving DecidableEq, Repr

/-- The bucket marker string of `getRebalancingDates`, as a pair.  The source
builds the strings `` `${year}` ``, `` `${year}-Q${floor(month0/3)+1}` `` and
`` `${year}-${month0}` `` (with `month0 = getUTCMonth()` 0-based); equality of
those strings is equality of these pairs. -/
def marker : Period → CalDate → Nat × Nat
  | .never, _ => (0, 0)
  | .annually, d => (d.year, 0)
  | .quarterly, d => (d.year, (d.month - 1) / 3 + 1)
  | .monthly, d => (d.year, d.month - 1)

/-- The `lastMarker` scan of `getRebalancingDates`: a date is added whenever
its marker differs from the previous marker (`null` at the start). -/
def rebalScan (key : CalDate → Nat × Nat) :
    List CalDate → Option (Nat × Nat) → List CalDate
  | [], _ => []
  | d :: rest, last =>
      if some (key d) = last then rebalScan key rest last
      else d :: rebalScan key rest (some (key d))

/-- `getRebalancingDates` of the source: `never` gives the empty set; otherwise
the marker-change scan, with the calendar's first date removed at the end.
The returned JS `Set` is modelled by the list of inserted dates, read up to
membership. -/
def getRebalancingDates (dates : List CalDate) (period : Period) :
    List CalDate :=
  match period with
  | .never => []
  | p =>
      let added := rebalScan (marker p) dates none
      match dates with
      | [] => added
      | d0 :: _ => added.filter (fun d => d ≠ d0)

/-- The portfolio configuration of the request. -/
structure PortfolioConfig where
  name : String
  tickers : List String
  weights : List ℚ
  rebalancingPeriod : Period

/-- Lookup of a ticker's aligned price list (`alignedData.prices[ticker]`). -/
def lookupPrices (ps : List (String × List ℚ)) (t : String) : Option (List ℚ) :=
  match ps with
  | [] => none
  | (t0, l) :: rest => if t0 = t then some l else lookupPrices rest t

/-- `alignedData.prices[ticker][i]`; out-of-range access yields the junk value
`0`, which never arises on well-formed aligned data. -/
def priceAt (A : AlignedData) (t : String) (i : Nat) : ℚ :=
  ((lookupPrices A.prices t).getD []).getD i 0

/-- `shares.reduce((sum, s, j) => sum + s * currentPrices[j], 0)`: the
mark-to-market sum of a share vector against a price vector. -/
def dotProd (a b : List ℚ) : ℚ := (List.zipWith (fun s p => s * p) a b).sum

/-- `normalizedWeights.map((w, j) => (amount * w) / (prices[j] + EPSILON))`:
the share allocation used both at initialization and at a rebalance. -/
def allocShares (amount : ℚ) (normW prices : List ℚ) : List ℚ :=
  List.zipWith (fun w p => amount * w / (p + EPSILON)) normW prices

/-- The main simulation loop of `runPortfolioSimulation`, one step per indexed
calendar date: record the mark-to-market value, then, on a trigger date whose
prices are all nonzero, reallocate the shares to the target weights. -/
def simLoop (tickers : List String) (normW : List ℚ) (A : AlignedData)
    (rebalDates : List CalDate) :
    List (Nat × CalDate) → List ℚ → List (CalDate × ℚ)
  | [], _ => []
  | (i, d) :: rest, shares =>
      let currentPrices := tickers.map (fun t => priceAt A t i)
      let currentValue := dotProd shares currentPrices
      (d, currentValue) ::
        (if d ∈ rebalDates then
          if ∃ p ∈ currentPrices, p = 0 then
            simLoop tickers normW A rebalDates rest shares
          else
            simLoop tickers normW A rebalDates rest
              (allocShares currentValue normW currentPrices)
        else simLoop tickers normW A rebalDates rest shares)

/-- `runSingleAssetSimulation` of the source: buy-and-hold of one ticker,
`shares = initialAmount / price₀` (empty result if the price list is missing,
empty, or starts at zero), `value(t) = price(t) × shares`. -/
def runSingleAssetSimulation (ticker : String) (A : AlignedData)
    (initialAmount : ℚ) : List (CalDate × ℚ) :=
  match lookupPrices A.prices ticker with
  | none => []
  | some prices =>
      if prices = [] then []
      else
        let initialPrice := prices.getD 0 0
        if initialPrice = 0 then []
        else
          let shares := initialAmount / initialPrice
          List.zipWith (fun p d => (d, p * shares)) prices A.dates

/-- The epoch day number of a date (days since 1970-01-01), the
`days-from-civil` computation underlying `Date.getTime() / 86400000` for a
UTC-midnight date. -/
def dayNumber (dt : CalDate) : Int :=
  let y : Int := if dt.month ≤ 2 then (dt.year : Int) - 1 else (dt.year : Int)
  let era : Int := y / 400
  let yoe : Int := y - era * 400
  let mp : Int := ((dt.month : Int) + 9) % 12
  let doy : Int := (153 * mp + 2) / 5 + (dt.day : Int) - 1
  let doe : Int := yoe * 365 + yoe / 4 - yoe / 100 + doy
  era * 146097 + doe - 719468

/-- `(endDate.getTime() - startDate.getTime()) / (1000*60*60*24*365.25)`:
the day difference divided by 365.25. -/
def yearsBetween (d1 d2 : CalDate) : ℚ :=
  ((dayNumber d2 - dayNumber d1 : Int) : ℚ) * 4 / 1461

/-- `years > 0 ? Math.pow(endValue / startValue, 1 / years) - 1 : 0`,
with `Math.pow` abstracted as `powf`. -/
def cagrExpr (powf : ℚ → ℚ → ℚ) (years sv ev : ℚ) : ℚ :=
  if 0 < years then powf (ev / sv) (1 / years) - 1 else 0

/-- The maximum-drawdown fold of `calculateMetrics`: running peak (started at
`-Infinity`, modelled by `none`) and running minimum drawdown, the drawdown
only being recorded while `peak > EPSILON`. -/
def mddFold : List ℚ → Option ℚ → ℚ → ℚ
  | [], _, m => m
  | v :: vs, peak, m =>
      let peak2 := match peak with | none => v | some pv => max pv v
      let m2 := if EPSILON < peak2 then min m ((v - peak2) / peak2) else m
      mddFold vs (some peak2) m2

/-- The daily-return extraction of `calculateMetrics`: `v(t)/v(t-1) - 1`,
skipping steps whose previous value is not above `EPSILON`. -/
def dailyReturnsOf : List ℚ → List ℚ
  | v0 :: v1 :: rest =>
      (if EPSILON < v0 then [v1 / v0 - 1] else []) ++ dailyReturnsOf (v1 :: rest)
  | _ => []

/-- `variance_p` of the source: population variance (denominator `n`),
`0` for fewer than two points. -/
def variance_p (arr : List ℚ) : ℚ :=
  if arr.length < 2 then 0
  else
    let mean := arr.sum / (arr.length : ℚ)
    ((arr.map (fun v => (v - mean) ^ 2)).sum) / (arr.length : ℚ)

/-- `covariance` of the source: population covariance (denominator `n`),
`0` when the lengths differ or are below two. -/
def covariance (arr1 arr2 : List ℚ) : ℚ :=
  if arr1.length ≠ arr2.length ∨ arr1.length < 2 then 0
  else
    let mean1 := arr1.sum / (arr1.length : ℚ)
    let mean2 := arr2.sum / (arr2.length : ℚ)
    ((List.zipWith (fun a b => (a - mean1) * (b - mean2)) arr1 arr2).sum) /
      (arr1.length : ℚ)

/-- The metrics record returned by `calculateMetrics`. -/
structure Metrics where
  cagr : ℚ
  mdd : ℚ
  volatility : ℚ
  sharpe_ratio : ℚ
  sortino_ratio : ℚ
  beta : Option ℚ
  alpha : Option ℚ
deriving DecidableEq, Repr

/-- The canonical zeroed record returned for fewer than two points. -/
def zeroMetrics : Metrics := ⟨0, 0, 0, 0, 0, none, none⟩

/-- The degenerate record returned when the starting value is below
`EPSILON` (full-loss sentinel `mdd = -1`). -/
def degenerateMetrics : Metrics := ⟨0, -1, 0, 0, 0, none, none⟩

/-- The placeholder entry used for (never occurring) out-of-range list reads. -/
def defaultEntry : CalDate × ℚ := (⟨0, 0, 0⟩, 0)

/-- `calculateMetrics` of the source, with `Math.pow`/`Math.sqrt` abstracted
as `powf`/`sqrtf`. -/
def calculateMetrics (powf : ℚ → ℚ → ℚ) (sqrtf : ℚ → ℚ)
    (hist : List (CalDate × ℚ)) (bench : Option (List (CalDate × ℚ)))
    (rf : ℚ) : Metrics :=
  if hist.length < 2 then zeroMetrics
  else
    let startValue := (hist.getD 0 defaultEntry).2
    let endValue := (hist.getD (hist.length - 1) defaultEntry).2
    if startValue < EPSILON then degenerateMetrics
    else
      let years :=
        yearsBetween (hist.getD 0 defaultEntry).1
          (hist.getD (hist.length - 1) defaultEntry).1
      let cagr := cagrExpr powf years startValue endValue
      let mdd := mddFold (hist.map Prod.snd) none 0
      let dailyReturns := dailyReturnsOf (hist.map Prod.snd)
      if dailyReturns.length < 2 then
        { cagr := cagr, mdd := mdd, volatility := 0, sharpe_ratio := 0,
          sortino_ratio := 0, beta := none, alpha := none }
      else
        let meanReturn := dailyReturns.sum / (dailyReturns.length : ℚ)
        let std := sqrtf
          (((dailyReturns.map (fun x => (x - meanReturn) ^ 2)).sum) /
            ((dailyReturns.length : ℚ) - 1))
        let volatility := std * sqrtf TRADING_DAYS_PER_YEAR
        let annualizedExcessReturn := cagr - rf
        let sharpe :=
          if EPSILON < volatility then annualizedExcessReturn / volatility else 0
        let downsideReturns := dailyReturns.filter (fun r => r < 0)
        let downsideStd :=
          if 1 < downsideReturns.length then
            sqrtf (((downsideReturns.map (fun x => x ^ 2)).sum) /
              (downsideReturns.length : ℚ)) * sqrtf TRADING_DAYS_PER_YEAR
          else 0
        let sortino :=
          if EPSILON < downsideStd then annualizedExcessReturn / downsideStd
          else 0
        let ba : Option ℚ × Option ℚ :=
          match bench with
          | none => (none, none)
          | some b =>
              if b.length = hist.length then
                let benchReturns := dailyReturnsOf (b.map Prod.snd)
                if dailyReturns.length = benchReturns.length ∧
                    1 < dailyReturns.length then
                  let cov := covariance dailyReturns benchReturns
                  let varb := variance_p benchReturns
                  if EPSILON < varb then
                    let beta := cov / varb
                    let benchCagr := cagrExpr powf years
                      (b.getD 0 defaultEntry).2 (b.getD (b.length - 1) defaultEntry).2
                    (some beta, some (cagr - (rf + beta * (benchCagr - rf))))
                  else (none, none)
                else (none, none)
              else (none, none)
        { cagr := cagr, mdd := mdd, volatility := volatility,
          sharpe_ratio := sharpe, sortino_ratio := sortino,
          beta := ba.1, alpha := ba.2 }

/-- The record returned by `runPortfolioSimulation`
(`{ name, ...metrics, portfolioHistory }`). -/
structure SimOutput where
  name : String
  metrics : Metrics
  portfolioHistory : List (CalDate × ℚ)
deriving DecidableEq, Repr

/-- `runPortfolioSimulation` of the source: guard the empty cases and the
zero-initial-price degeneracy (both returning empty history and the metrics of
an empty history with a `null` benchmark), then allocate initial shares and
run the dated simulation loop over the enumerated calendar. -/
def runPortfolioSimulation (powf : ℚ → ℚ → ℚ) (sqrtf : ℚ → ℚ)
    (portfolio : PortfolioConfig) (A : AlignedData) (initialAmount : ℚ)
    (benchmarkHistory : Option (List (CalDate × ℚ))) : SimOutput :=
  if portfolio.tickers = [] ∨ A.dates = [] then
    ⟨portfolio.name, calculateMetrics powf sqrtf [] none RISK_FREE_RATE, []⟩
  else
    let rebalancingDates :=
      getRebalancingDates A.dates portfolio.rebalancingPeriod
    let initialPrices := portfolio.tickers.map (fun t => priceAt A t 0)
    if ∃ p ∈ initialPrices, p = 0 then
      ⟨portfolio.name, calculateMetrics powf sqrtf [] none RISK_FREE_RATE, []⟩
    else
      let normalizedWeights := portfolio.weights.map (fun w => w / 100)
      let shares := allocShares initialAmount normalizedWeights initialPrices
      let history :=
        simLoop portfolio.tickers normalizedWeights A rebalancingDates
          A.dates.enum shares
      ⟨portfolio.name,
        calculateMetrics powf sqrtf history benchmarkHistory RISK_FREE_RATE,
        history⟩

/-- Lexicographic order on marker pairs: the order in which bucket markers
appear along a chronologically sorted calendar. -/
def pairLe (a b : Nat × Nat) : Prop := a.1 < b.1 ∨ (a.1 = b.1 ∧ a.2 ≤ b.2)

/-- The claim's notion for C2: `d` is the first date of its (period) bucket
within `dates`. -/
def isFirstOfBucket (dates : List CalDate) (period : Period) (d : CalDate) :
    Prop :=
  d ∈ dates ∧ ∀ e ∈ dates, marker period e = marker period d → d ≤ e

/-- The value series rises from `p`: every element is at least the previous
one, the first being at least `p`. -/
def risesFrom (p : ℚ) : List ℚ → Prop
  | [] => True
  | v :: vs => p ≤ v ∧ risesFrom v vs

/-- Population variance exactly as the spec words it (denominator `n`). -/
def specPopVariance (l : List ℚ) : ℚ :=
  ((l.map (fun x => (x - l.sum / (l.length : ℚ)) ^ 2)).sum) / (l.length : ℚ)

/-- Population covariance exactly as the spec words it (denominator `n`). -/
def specPopCovariance (l1 l2 : List ℚ) : ℚ :=
  ((List.zipWith
      (fun a b => (a - l1.sum / (l1.length : ℚ)) * (b - l2.sum / (l2.length : ℚ)))
      l1 l2).sum) / (l1.length : ℚ)

/-- Sample variance exactly as the spec words it (denominator `n - 1`). -/
def specSampleVariance (l : List ℚ) : ℚ :=
  ((l.map (fun x => (x - l.sum / (l.length : ℚ)) ^ 2)).sum) / ((l.length : ℚ) - 1)

/-- C7: `calculateMetrics` on fewer than two points returns the canonical
zeroed record with `beta`/`alpha` absent; on at least two points whose
starting value is below `EPSILON` it returns the degenerate record with
`cagr = 0`, `mdd = -1`, the remaining ratios zero and `beta`/`alpha` absent. -/
theorem C7_calculateMetrics_edge_branches (powf : ℚ → ℚ → ℚ) (sqrtf : ℚ → ℚ)
    (hist : List (CalDate × ℚ)) (bench : Option (List (CalDate × ℚ)))
    (rf : ℚ) :
    (hist.length < 2 →
      calculateMetrics powf sqrtf hist bench rf =
        { cagr := 0, mdd := 0, volatility := 0, sharpe_ratio := 0,
          sortino_ratio := 0, beta := none, alpha := none }) ∧
    (2 ≤ hist.length → (hist.getD 0 defaultEntry).2 < EPSILON →
      calculateMetrics powf sqrtf hist bench rf =
        { cagr := 0, mdd := -1, volatility := 0, sharpe_ratio := 0,
          sortino_ratio := 0, beta := none, alpha := none }) := by
  constructor
  · intro h
    unfold calculateMetrics
    rw [if_pos h]
    rfl
  · intro h1 h2
    unfold calculateMetrics
    rw [if_neg (by omega), if_pos h2]
    rfl

/-- Witness for C7 at concrete inputs: the empty history, and a two-point
history starting at value `0`. -/
theorem C7_witness :
    calculateMetrics (fun _ _ => 0) (fun _ => 0) [] none 0 =
      { cagr := 0, mdd := 0, volatility := 0, sharpe_ratio := 0,
        sortino_ratio := 0, beta := none, alpha := none } ∧
    calculateMetrics (fun _ _ => 0) (fun _ => 0)
        [(⟨2020, 1, 1⟩, 0), (⟨2020, 1, 2⟩, 1)] none 0 =
      { cagr := 0, mdd := -1, volatility := 0, sharpe_ratio := 0,
        sortino_ratio := 0, beta := none, alpha := none } :=
  ⟨(C7_calculateMetrics_edge_branches (fun _ _ => 0) (fun _ => 0) [] none 0).1
      (by decide),
   (C7_calculateMetrics_edge_branches (fun _ _ => 0) (fun _ => 0)
      [(⟨2020, 1, 1⟩, 0), (⟨2020, 1, 2⟩, 1)] none 0).2 (by decide)
      (by norm_num [EPSILON, defaultEntry])⟩

/-- C9: a portfolio in which some ticker's price on the first aligned date is
exactly zero yields an empty history and the default zeroed metrics record;
and portfolios of a request are simulated independently, each result being a
function of its own configuration alone. -/
theorem C9_zero_initial_price_degenerate (powf : ℚ → ℚ → ℚ) (sqrtf : ℚ → ℚ)
    (p : PortfolioConfig) (A : AlignedData) (amt : ℚ)
    (bench : Option (List (CalDate × ℚ)))
    (hz : ∃ t ∈ p.tickers, priceAt A t 0 = 0) :
    runPortfolioSimulation powf sqrtf p A amt bench =
      ⟨p.name, { cagr := 0, mdd := 0, volatility := 0, sharpe_ratio := 0,
                 sortino_ratio := 0, beta := none, alpha := none }, []⟩ ∧
    ∀ (ps : List PortfolioConfig) (i : Nat),
      (ps.map (fun q => runPortfolioSimulation powf sqrtf q A amt bench))[i]?
        = ps[i]?.map (fun q => runPortfolioSimulation powf sqrtf q A amt bench) := by
  constructor
  · unfold runPortfolioSimulation
    by_cases hc : p.tickers = [] ∨ A.dates = []
    · rw [if_pos hc]; rfl
    · rw [if_neg hc]
      obtain ⟨t, ht, hpt⟩ := hz
      rw [if_pos ⟨priceAt A t 0, List.mem_map_of_mem _ ht, hpt⟩]; rfl
  · intro ps i
    exact List.getElem?_map _ ps i

/-- Witness for C9: a one-ticker portfolio whose single price on the first
aligned date is zero. -/
theorem C9_witness :
    runPortfolioSimulation (fun _ _ => 0) (fun _ => 0)
        ⟨"p", ["A"], [(100 : ℚ)], Period.never⟩
        ⟨[⟨2020, 1, 1⟩], [("A", [(0 : ℚ)])]⟩ 1000 none =
      ⟨"p", { cagr := 0, mdd := 0, volatility := 0, sharpe_ratio := 0,
              sortino_ratio := 0, beta := none, alpha := none }, []⟩ :=
  (C9_zero_initial_price_degenerate (fun _ _ => 0) (fun _ => 0)
    ⟨"p", ["A"], [(100 : ℚ)], Period.never⟩
    ⟨[⟨2020, 1, 1⟩], [("A", [(0 : ℚ)])]⟩ 1000 none
    ⟨"A", List.mem_singleton.mpr rfl, rfl⟩).1

/-- With an empty trigger set the simulation loop never reallocates: every
recorded entry is the entering share vector marked at that index's prices. -/
theorem simLoop_no_rebal (tickers : List String) (normW : List ℚ)
    (A : AlignedData) :
    ∀ (idx : List (Nat × CalDate)) (shares : List ℚ),
      simLoop tickers normW A [] idx shares =
        idx.map (fun e =>
          (e.2, dotProd shares (tickers.map (fun t => priceAt A t e.1)))) := by
  intro idx
  induction idx with
  | nil => intro shares; rfl
  | cons e rest ih =>
      intro shares
      obtain ⟨i, d⟩ := e
      simp only [simLoop, List.not_mem_nil, if_false, ih, List.map_cons]

/-- C5: with `rebalancingPeriod = never` the share counts are never
reassigned after initialization: the whole recorded history is the initial
share vector `allocShares` marked to market at each date's prices. -/
theorem C5_never_shares_frozen (powf : ℚ → ℚ → ℚ) (sqrtf : ℚ → ℚ)
    (p : PortfolioConfig) (A : AlignedData) (amt : ℚ)
    (bench : Option (List (CalDate × ℚ)))
    (hper : p.rebalancingPeriod = Period.never)
    (ht : p.tickers ≠ []) (hd : A.dates ≠ [])
    (hz : ∀ t ∈ p.tickers, priceAt A t 0 ≠ 0) :
    (runPortfolioSimulation powf sqrtf p A amt bench).portfolioHistory =
      A.dates.enum.map (fun e =>
        (e.2, dotProd
          (allocShares amt (p.weights.map (fun w => w / 100))
            (p.tickers.map (fun t => priceAt A t 0)))
          (p.tickers.map (fun t => priceAt A t e.1)))) := by
  unfold runPortfolioSimulation
  have hnz : ¬ ∃ q ∈ p.tickers.map (fun t => priceAt A t 0), q = 0 := by
    rintro ⟨q, hq, rfl⟩
    obtain ⟨t, ht2, hq2⟩ := List.mem_map.mp hq
    exact hz t ht2 hq2
  rw [if_neg (by push_neg; exact ⟨ht, hd⟩), if_neg hnz, hper]
  rw [show getRebalancingDates A.dates Period.never = ([] : List CalDate) from rfl]
  exact simLoop_no_rebal _ _ _ _ _

/-- Witness for C5 at a concrete two-day, one-ticker input. -/
theorem C5_witness :
    (runPortfolioSimulation (fun _ _ => 0) (fun _ => 0)
        ⟨"p", ["A"], [(100 : ℚ)], Period.never⟩
        ⟨[⟨2020, 1, 1⟩, ⟨2020, 1, 2⟩], [("A", [(100 : ℚ), 110])]⟩
        1000 none).portfolioHistory =
      ([(⟨2020, 1, 1⟩ : CalDate), ⟨2020, 1, 2⟩].enum.map (fun e =>
        (e.2, dotProd
          (allocShares 1000 ([(100 : ℚ)].map (fun w => w / 100))
            (["A"].map (fun t =>
              priceAt ⟨[⟨2020, 1, 1⟩, ⟨2020, 1, 2⟩], [("A", [(100 : ℚ), 110])]⟩ t 0)))
          (["A"].map (fun t =>
            priceAt ⟨[⟨2020, 1, 1⟩, ⟨2020, 1, 2⟩], [("A", [(100 : ℚ), 110])]⟩ t e.1))))) :=
  C5_never_shares_frozen (fun _ _ => 0) (fun _ => 0)
    ⟨"p", ["A"], [(100 : ℚ)], Period.never⟩
    ⟨[⟨2020, 1, 1⟩, ⟨2020, 1, 2⟩], [("A", [(100 : ℚ), 110])]⟩ 1000 none
    rfl (by decide) (by decide)
    (by
      intro t htm
      rw [List.mem_singleton.mp htm]
      norm_num [priceAt, lookupPrices])

theorem pairLe_antisymm {a b : Nat × Nat} (h1 : pairLe a b) (h2 : pairLe b a) :
    a = b := by
  obtain ⟨a1, a2⟩ := a
  obtain ⟨b1, b2⟩ := b
  unfold pairLe at h1 h2
  dsimp only at h1 h2
  simp only [Prod.mk.injEq]
  omega

/-- The bucket markers are monotone along the date order, for every period. -/
theorem marker_mono (p : Period) {a b : CalDate} (hab : a ≤ b) :
    pairLe (marker p a) (marker p b) := by
  rw [CalDate.le_def] at hab
  cases p <;> (unfold marker pairLe; dsimp only; omega)

/-- Membership in the marker-change scan over a strictly sorted date list:
exactly the dates whose marker differs from the incoming one and that are the
earliest date carrying their marker. -/
theorem rebalScan_mem (key : CalDate → Nat × Nat)
    (hmono : ∀ a b : CalDate, a ≤ b → pairLe (key a) (key b)) :
    ∀ (dates : List CalDate), dates.Sorted (· < ·) →
      ∀ (last : Option (Nat × Nat)),
        (∀ k, last = some k → ∀ e ∈ dates, pairLe k (key e)) →
        ∀ d, d ∈ rebalScan key dates last ↔
          (d ∈ dates ∧ (∀ k, last = some k → key d ≠ k) ∧
            ∀ e ∈ dates, key e = key d → d ≤ e) := by
  intro dates
  induction dates with
  | nil => intro _ last _ d; simp [rebalScan]
  | cons h t ih =>
      intro hsort last hlast d
      have hht : ∀ e ∈ t, h < e := (List.sorted_cons.mp hsort).1
      have hst : t.Sorted (· < ·) := (List.sorted_cons.mp hsort).2
      by_cases hcase : some (key h) = last
      · subst hcase
        rw [rebalScan, if_pos rfl]
        rw [ih hst (some (key h))
          (fun k hk e he => hlast k hk e (List.mem_cons_of_mem _ he)) d]
        constructor
        · rintro ⟨hdt, hne, hmin⟩
          have hdneh : key d ≠ key h := hne (key h) rfl
          refine ⟨List.mem_cons_of_mem _ hdt, hne, ?_⟩
          intro e he hke
          rcases List.mem_cons.mp he with rfl | het
          · exact absurd hke.symm hdneh
          · exact hmin e het hke
        · rintro ⟨hdht, hne, hmin⟩
          have hdneh : key d ≠ key h := hne (key h) rfl
          have hdt : d ∈ t := by
            rcases List.mem_cons.mp hdht with rfl | hdt
            · exact absurd rfl hdneh
            · exact hdt
          exact ⟨hdt, hne, fun e he hke => hmin e (List.mem_cons_of_mem _ he) hke⟩
      · rw [rebalScan, if_neg hcase]
        rw [List.mem_cons]
        have hinv2 : ∀ k, some (key h) = some k → ∀ e ∈ t, pairLe k (key e) := by
          intro k hk e he
          have hk2 : k = key h := (Option.some.inj hk).symm
          rw [hk2]
          exact hmono h e (le_of_lt (hht e he))
        rw [ih hst (some (key h)) hinv2 d]
        constructor
        · rintro (rfl | ⟨hdt, hne, hmin⟩)
          · refine ⟨List.mem_cons_self _ _, ?_, ?_⟩
            · intro k hk hdk
              exact hcase (by rw [hdk, ← hk])
            · intro e he _
              rcases List.mem_cons.mp he with rfl | het
              · exact le_refl _
              · exact le_of_lt (hht e het)
          · have hdneh : key d ≠ key h := hne (key h) rfl
            refine ⟨List.mem_cons_of_mem _ hdt, ?_, ?_⟩
            · intro k hk hdk
              have p1 : pairLe k (key h) := hlast k hk h (List.mem_cons_self _ _)
              have p2 : pairLe (key h) k := by
                rw [← hdk]
                exact hmono h d (le_of_lt (hht d hdt))
              exact hcase (by rw [pairLe_antisymm p2 p1, ← hk])
            · intro e he hke
              rcases List.mem_cons.mp he with rfl | het
              · exact absurd hke.symm hdneh
              · exact hmin e het hke
        · rintro ⟨hdht, hne, hmin⟩
          rcases List.mem_cons.mp hdht with rfl | hdt
          · exact Or.inl rfl
          · refine Or.inr ⟨hdt, ?_, fun e he hke => hmin e (List.mem_cons_of_mem _ he) hke⟩
            intro k hk hdk
            have hk2 : k = key h := (Option.some.inj hk).symm
            rw [hk2] at hdk
            have h1 : d ≤ h := hmin h (List.mem_cons_self _ _) hdk.symm
            exact absurd h1 (not_le.mpr (hht d hdt))

theorem getRebalancingDates_ne_never (dates : List CalDate) (p : Period)
    (hp : p ≠ Period.never) :
    getRebalancingDates dates p =
      (match dates with
       | [] => rebalScan (marker p) dates none
       | d0 :: _ => (rebalScan (marker p) dates none).filter (fun x => x ≠ d0)) := by
  cases p
  · exact absurd rfl hp
  all_goals rfl

/-- Membership in the non-`never` trigger set over a strictly sorted calendar:
the earliest date of each marker bucket, the calendar's first date removed. -/
theorem getRebal_mem_ne_never (p : Period) (hp : p ≠ Period.never)
    (dates : List CalDate) (hsort : dates.Sorted (· < ·)) (d : CalDate) :
    d ∈ getRebalancingDates dates p ↔
      (d ∈ dates ∧ (∀ e ∈ dates, marker p e = marker p d → d ≤ e) ∧
        dates.head? ≠ some d) := by
  rw [getRebalancingDates_ne_never dates p hp]
  cases dates with
  | nil => simp [rebalScan]
  | cons d0 rest =>
      rw [List.mem_filter]
      rw [rebalScan_mem (marker p) (fun a b => marker_mono p) (d0 :: rest) hsort
        none (fun k hk => nomatch hk) d]
      constructor
      · rintro ⟨⟨h1, _, h2⟩, h3⟩
        have h3x : d ≠ d0 := by simpa using h3
        refine ⟨h1, h2, ?_⟩
        intro hc
        exact h3x (Option.some.inj (by simpa using hc)).symm
      · rintro ⟨h1, h2, h3⟩
        have h3x : d ≠ d0 := fun hc => h3 (by rw [List.head?_cons, hc])
        refine ⟨⟨h1, ?_, h2⟩, ?_⟩
        · intro k hk
          exact absurd hk (by simp)
        · simpa using h3x

/-- C2 (amended): `getRebalancingDates` with `never` returns the empty set;
for the periodic modes, over a STRICTLY SORTED date sequence the trigger set
is exactly the first date of every (year) / (year, quarter) / (year, month)
bucket, with the calendar's very first date always excluded.  (On unsorted
sequences the marker-change scan differs from first-of-bucket; see the
counterexample.) -/
theorem C2_rebalancing_trigger_set (dates : List CalDate) (period : Period)
    (hsort : dates.Sorted (· < ·)) :
    getRebalancingDates dates Period.never = [] ∧
    (∀ d, d ∈ getRebalancingDates dates period ↔
      (period ≠ Period.never ∧ isFirstOfBucket dates period d ∧
        dates.head? ≠ some d)) := by
  refine ⟨rfl, fun d => ?_⟩
  by_cases hp : period = Period.never
  · subst hp
    simp [getRebalancingDates]
  · rw [getRebal_mem_ne_never period hp dates hsort d]
    unfold isFirstOfBucket
    constructor
    · rintro ⟨h1, h2, h3⟩
      exact ⟨hp, ⟨h1, h2⟩, h3⟩
    · rintro ⟨_, ⟨h1, h2⟩, h3⟩
      exact ⟨h1, h2, h3⟩

/-- Witness for C2 at a concrete sorted three-date calendar with monthly
rebalancing. -/
theorem C2_witness :
    ((⟨2020, 2, 3⟩ : CalDate) ∈
        getRebalancingDates [⟨2020, 1, 5⟩, ⟨2020, 2, 3⟩, ⟨2021, 1, 7⟩]
          Period.monthly) ↔
      (Period.monthly ≠ Period.never ∧
        isFirstOfBucket [⟨2020, 1, 5⟩, ⟨2020, 2, 3⟩, ⟨2021, 1, 7⟩]
          Period.monthly ⟨2020, 2, 3⟩ ∧
        ([(⟨2020, 1, 5⟩ : CalDate), ⟨2020, 2, 3⟩, ⟨2021, 1, 7⟩].head? ≠
          some ⟨2020, 2, 3⟩)) :=
  (C2_rebalancing_trigger_set [⟨2020, 1, 5⟩, ⟨2020, 2, 3⟩, ⟨2021, 1, 7⟩]
    Period.monthly (by decide)).2 ⟨2020, 2, 3⟩

instance isFirstOfBucket.instDecidable (dates : List CalDate)
    (period : Period) (d : CalDate) : Decidable (isFirstOfBucket dates period d) := by
  unfold isFirstOfBucket
  infer_instance

/-- Counterexample for C2 as literally stated: on the (unsorted) date sequence
2020-01-01, 2021-01-01, 2020-06-01 with annual rebalancing, the code's
trigger set contains 2020-06-01, which is not the first date of any (year)
bucket — so "for every date sequence" fails; sortedness is required. -/
theorem C2_counterexample :
    (⟨2020, 6, 1⟩ : CalDate) ∈
      getRebalancingDates [⟨2020, 1, 1⟩, ⟨2021, 1, 1⟩, ⟨2020, 6, 1⟩]
        Period.annually ∧
    ¬ isFirstOfBucket [⟨2020, 1, 1⟩, ⟨2021, 1, 1⟩, ⟨2020, 6, 1⟩]
        Period.annually ⟨2020, 6, 1⟩ := by
  constructor
  · decide
  · decide

/-- The drawdown fold never increases the running minimum. -/
theorem mddFold_le (l : List ℚ) :
    ∀ (po : Option ℚ) (m : ℚ), mddFold l po m ≤ m := by
  induction l with
  | nil => intro po m; exact le_refl m
  | cons v vs ih =>
      intro po m
      rw [mddFold.eq_def]
      dsimp only
      refine le_trans (ih _ _) ?_
      split
      · exact min_le_left _ _
      · exact le_refl m

/-- Once the running peak exceeds `EPSILON`, the fold returns `0` exactly when
the accumulated minimum is `0` and the remaining values rise from the peak. -/
theorem mddFold_eq_zero_iff (l : List ℚ) :
    ∀ (p m : ℚ), EPSILON < p → m ≤ 0 →
      (mddFold l (some p) m = 0 ↔ (m = 0 ∧ risesFrom p l)) := by
  induction l with
  | nil =>
      intro p m _ _
      simp [mddFold, risesFrom]
  | cons v vs ih =>
      intro p m hp hm
      have hpk : EPSILON < max p v := lt_of_lt_of_le hp (le_max_left p v)
      have hpkpos : (0 : ℚ) < max p v := lt_trans (by norm_num [EPSILON]) hpk
      have hdd : (v - max p v) / max p v ≤ 0 :=
        div_nonpos_of_nonpos_of_nonneg (sub_nonpos.mpr (le_max_right p v))
          (le_of_lt hpkpos)
      rw [mddFold.eq_def]
      dsimp only
      rw [if_pos hpk]
      rw [ih (max p v) (min m ((v - max p v) / max p v)) hpk
        (le_trans (min_le_left _ _) hm)]
      have hx_iff : min m ((v - max p v) / max p v) = 0 ↔
          (m = 0 ∧ (v - max p v) / max p v = 0) := by
        constructor
        · intro h0
          have h1 : (0 : ℚ) ≤ m := h0 ▸ min_le_left m ((v - max p v) / max p v)
          have h2 : (0 : ℚ) ≤ (v - max p v) / max p v :=
            h0 ▸ min_le_right m ((v - max p v) / max p v)
          exact ⟨le_antisymm hm h1, le_antisymm hdd h2⟩
        · rintro ⟨h1, h2⟩
          rw [h1, h2]
          exact min_self 0
      have hxe : ((v - max p v) / max p v = 0) ↔ p ≤ v := by
        rw [div_eq_zero_iff]
        constructor
        · rintro (h | h)
          · exact max_eq_right_iff.mp (sub_eq_zero.mp h).symm
          · exact absurd h (ne_of_gt hpkpos)
        · intro hpv
          exact Or.inl (by rw [max_eq_right hpv, sub_self])
      simp only [risesFrom]
      constructor
      · rintro ⟨hmin, hrise⟩
        obtain ⟨hm0, hx0⟩ := hx_iff.mp hmin
        have hpv : p ≤ v := hxe.mp hx0
        rw [max_eq_right hpv] at hrise
        exact ⟨hm0, hpv, hrise⟩
      · rintro ⟨hm0, hpv, hrise⟩
        refine ⟨hx_iff.mpr ⟨hm0, hxe.mpr hpv⟩, ?_⟩
        rw [max_eq_right hpv]
        exact hrise

theorem risesFrom_iff_chain (l : List ℚ) :
    ∀ p : ℚ, risesFrom p l ↔ List.Chain' (· ≤ ·) (p :: l) := by
  induction l with
  | nil => intro p; simp [risesFrom]
  | cons v vs ih =>
      intro p
      rw [List.chain'_cons, ← ih v]
      simp only [risesFrom]

/-- The `mdd` field of a non-degenerate `calculateMetrics` call is the
drawdown fold of the value series. -/
theorem calculateMetrics_mdd_eq (powf : ℚ → ℚ → ℚ) (sqrtf : ℚ → ℚ)
    (hist : List (CalDate × ℚ)) (bench : Option (List (CalDate × ℚ)))
    (rf : ℚ) (h2 : ¬ hist.length < 2)
    (hs : ¬ (hist.getD 0 defaultEntry).2 < EPSILON) :
    (calculateMetrics powf sqrtf hist bench rf).mdd =
      mddFold (hist.map Prod.snd) none 0 := by
  unfold calculateMetrics
  rw [if_neg h2, if_neg hs]
  dsimp only
  split
  · rfl
  · rfl

/-- C4 (amended): for a value series of at least two points whose starting
value is STRICTLY ABOVE `EPSILON`, the `mdd` computed by `calculateMetrics`
is always `≤ 0`, and it is `0` exactly when the value series is
non-decreasing.  (At a starting value of exactly `EPSILON` the peak guard
`peak > EPSILON` never fires and `mdd` stays `0` even on a falling series;
see the counterexample.) -/
theorem C4_mdd_nonpositive_and_zero_iff_monotone (powf : ℚ → ℚ → ℚ)
    (sqrtf : ℚ → ℚ) (hist : List (CalDate × ℚ))
    (bench : Option (List (CalDate × ℚ))) (rf : ℚ)
    (h2 : 2 ≤ hist.length)
    (hv0 : EPSILON < (hist.getD 0 defaultEntry).2) :
    (calculateMetrics powf sqrtf hist bench rf).mdd ≤ 0 ∧
    ((calculateMetrics powf sqrtf hist bench rf).mdd = 0 ↔
      List.Chain' (· ≤ ·) (hist.map Prod.snd)) := by
  rw [calculateMetrics_mdd_eq powf sqrtf hist bench rf (by omega)
    (not_lt.mpr (le_of_lt hv0))]
  cases hist with
  | nil => simp at h2
  | cons e0 rest =>
      have hv0x : EPSILON < e0.2 := hv0
      rw [List.map_cons, mddFold.eq_def]
      dsimp only
      rw [if_pos hv0x, sub_self, zero_div, min_self]
      constructor
      · exact mddFold_le _ _ _
      · rw [mddFold_eq_zero_iff _ e0.2 0 hv0x (le_refl 0)]
        rw [risesFrom_iff_chain]
        simp

/-- Witness for C4 at a concrete falling two-point series well above
`EPSILON`. -/
theorem C4_witness :
    (calculateMetrics (fun _ _ => 0) (fun _ => 0)
        [(⟨2020, 1, 1⟩, 100), (⟨2020, 1, 2⟩, 90)] none 0).mdd ≤ 0 ∧
    ((calculateMetrics (fun _ _ => 0) (fun _ => 0)
        [(⟨2020, 1, 1⟩, 100), (⟨2020, 1, 2⟩, 90)] none 0).mdd = 0 ↔
      List.Chain' (· ≤ ·)
        ([((⟨2020, 1, 1⟩ : CalDate), (100 : ℚ)), (⟨2020, 1, 2⟩, 90)].map Prod.snd)) :=
  C4_mdd_nonpositive_and_zero_iff_monotone (fun _ _ => 0) (fun _ => 0)
    [(⟨2020, 1, 1⟩, 100), (⟨2020, 1, 2⟩, 90)] none 0 (by decide)
    (by norm_num [EPSILON, defaultEntry])

/-- Counterexample for C4 as literally stated ("starting value at least
EPSILON"): a series starting at exactly `EPSILON` and then halving is
strictly decreasing, yet its `mdd` is `0`, because the drawdown is only
recorded while `peak > EPSILON` (strict). -/
theorem C4_counterexample :
    (calculateMetrics (fun _ _ => 0) (fun _ => 0)
        [(⟨2020, 1, 1⟩, EPSILON), (⟨2020, 1, 2⟩, EPSILON / 2)] none 0).mdd = 0 ∧
    ¬ List.Chain' (· ≤ ·)
        ([((⟨2020, 1, 1⟩ : CalDate), EPSILON), (⟨2020, 1, 2⟩, EPSILON / 2)].map
          Prod.snd) := by
  constructor
  · rw [calculateMetrics_mdd_eq _ _ _ _ _ (by decide)
      (by simp [defaultEntry])]
    rw [List.map_cons, List.map_cons, List.map_nil]
    rw [mddFold.eq_def]
    dsimp only
    rw [if_neg (lt_irrefl EPSILON)]
    rw [mddFold.eq_def]
    dsimp only
    rw [max_eq_left (by norm_num [EPSILON] : EPSILON / 2 ≤ EPSILON)]
    rw [if_neg (lt_irrefl EPSILON)]
    rfl
  · simp only [List.map_cons, List.map_nil, List.chain'_cons,
      List.chain'_singleton, and_true]
    norm_num [EPSILON]

theorem EPSILON_pos : (0 : ℚ) < EPSILON := by norm_num [EPSILON]

theorem allocShares_cons (amt w q : ℚ) (ws qs : List ℚ) :
    allocShares amt (w :: ws) (q :: qs) =
      (amt * w / (q + EPSILON)) :: allocShares amt ws qs := rfl

theorem dotProd_cons (a b : ℚ) (as bs : List ℚ) :
    dotProd (a :: as) (b :: bs) = a * b + dotProd as bs := by
  simp [dotProd]

theorem alloc_step_upper (amt w q : ℚ) (hw : 0 ≤ w) (hq : 0 < q)
    (hamt : 0 ≤ amt) : amt * w / (q + EPSILON) * q ≤ amt * w := by
  have hqe : (0 : ℚ) < q + EPSILON := by linarith [EPSILON_pos]
  rw [div_mul_eq_mul_div, mul_div_assoc]
  refine mul_le_of_le_one_right (mul_nonneg hamt hw) ?_
  rw [div_le_one hqe]
  linarith [EPSILON_pos]

theorem alloc_step_lower (amt w q : ℚ) (hw : 0 ≤ w) (hq : 0 < q)
    (hamt : 0 ≤ amt) :
    amt * w - amt * w / (q + EPSILON) * q ≤ amt * EPSILON * (w / q) := by
  have hqe : (0 : ℚ) < q + EPSILON := by linarith [EPSILON_pos]
  have hrw : amt * w - amt * w / (q + EPSILON) * q =
      amt * w * EPSILON / (q + EPSILON) := by
    field_simp
    ring
  rw [hrw, div_le_iff₀ hqe]
  have h1 : amt * EPSILON * (w / q) * (q + EPSILON) =
      amt * EPSILON * w * ((q + EPSILON) / q) := by
    field_simp
  rw [h1]
  have h2 : (1 : ℚ) ≤ (q + EPSILON) / q := by
    rw [le_div_iff₀ hq]
    linarith [EPSILON_pos]
  calc amt * w * EPSILON = amt * EPSILON * w * 1 := by ring
    _ ≤ amt * EPSILON * w * ((q + EPSILON) / q) := by
        refine mul_le_mul_of_nonneg_left h2 ?_
        exact mul_nonneg (mul_nonneg hamt (le_of_lt EPSILON_pos)) hw

/-- The ε-guarded reallocation marks back to the target amount from below,
with shortfall at most `amt × EPSILON × Σ (wᵢ/pᵢ)`.  Shared by the
initialization (C3) and rebalancing (C10) analyses. -/
theorem alloc_dot_bounds (amt : ℚ) (hamt : 0 ≤ amt) :
    ∀ (normW prices : List ℚ), normW.length = prices.length →
      (∀ w ∈ normW, 0 ≤ w) → (∀ q ∈ prices, 0 < q) →
      dotProd (allocShares amt normW prices) prices ≤ amt * normW.sum ∧
      amt * normW.sum - dotProd (allocShares amt normW prices) prices ≤
        amt * EPSILON * (List.zipWith (fun w q => w / q) normW prices).sum := by
  intro normW
  induction normW with
  | nil =>
      intro prices hlen _ _
      simp [allocShares, dotProd]
  | cons w ws ih =>
      intro prices hlen hw hq
      cases prices with
      | nil => simp at hlen
      | cons q qs =>
          have hlen2 : ws.length = qs.length := by simpa using hlen
          have hw0 : 0 ≤ w := hw w (List.mem_cons_self _ _)
          have hq0 : 0 < q := hq q (List.mem_cons_self _ _)
          have hws : ∀ x ∈ ws, 0 ≤ x :=
            fun x hx => hw x (List.mem_cons_of_mem _ hx)
          have hqs : ∀ x ∈ qs, 0 < x :=
            fun x hx => hq x (List.mem_cons_of_mem _ hx)
          obtain ⟨ih1, ih2⟩ := ih qs hlen2 hws hqs
          have hstep1 := alloc_step_upper amt w q hw0 hq0 hamt
          have hstep2 := alloc_step_lower amt w q hw0 hq0 hamt
          rw [allocShares_cons, dotProd_cons, List.sum_cons,
            List.zipWith_cons_cons, List.sum_cons, mul_add, mul_add]
          constructor
          · linarith
          · linarith

/-- One unfolding step of the simulation loop: the entry recorded for a date
is always the mark-to-market of the shares HELD ON ENTRY; only the tail sees
any reallocation. -/
theorem simLoop_cons (tickers : List String) (normW : List ℚ)
    (A : AlignedData) (rebalDates : List CalDate) (i : Nat) (d : CalDate)
    (rest : List (Nat × CalDate)) (shares : List ℚ) :
    simLoop tickers normW A rebalDates ((i, d) :: rest) shares =
      (d, dotProd shares (tickers.map (fun t => priceAt A t i))) ::
      (if d ∈ rebalDates then
        (if ∃ p ∈ tickers.map (fun t => priceAt A t i), p = 0 then
          simLoop tickers normW A rebalDates rest shares
        else
          simLoop tickers normW A rebalDates rest
            (allocShares (dotProd shares (tickers.map (fun t => priceAt A t i)))
              normW (tickers.map (fun t => priceAt A t i))))
      else simLoop tickers normW A rebalDates rest shares) := rfl

/-- The first recorded entry of the simulation loop over an enumerated
nonempty calendar. -/
theorem simLoop_enum_head (tickers : List String) (normW : List ℚ)
    (A : AlignedData) (rebalDates : List CalDate) (dates : List CalDate)
    (shares : List ℚ) (hd : dates ≠ []) :
    (simLoop tickers normW A rebalDates dates.enum shares).head? =
      some (dates.head hd,
        dotProd shares (tickers.map (fun t => priceAt A t 0))) := by
  cases dates with
  | nil => exact absurd rfl hd
  | cons d0 rest =>
      rw [List.enum_cons, simLoop_cons, List.head?_cons, List.head_cons]

theorem sumMapDiv (l : List ℚ) (c : ℚ) :
    (l.map (fun w => w / c)).sum = l.sum / c := by
  induction l with
  | nil => simp
  | cons x xs ih => simp [ih, add_div]

/-- C3: with weights summing to 100 and strictly positive first-date prices,
the first recorded portfolio value is the initial share vector marked at the
first date's prices, and it underestimates `initialAmount` by at most
`initialAmount × EPSILON × Σᵢ (wᵢ/100)/pᵢ(t₀)`. -/
theorem C3_initial_value_matches_amount (powf : ℚ → ℚ → ℚ) (sqrtf : ℚ → ℚ)
    (p : PortfolioConfig) (A : AlignedData) (amt : ℚ)
    (bench : Option (List (CalDate × ℚ)))
    (hlen : p.weights.length = p.tickers.length)
    (hd : A.dates ≠ [])
    (hw : ∀ w ∈ p.weights, 0 ≤ w) (hsum : p.weights.sum = 100)
    (hp : ∀ t ∈ p.tickers, 0 < priceAt A t 0)
    (hamt : 0 ≤ amt) :
    (runPortfolioSimulation powf sqrtf p A amt bench).portfolioHistory.head? =
      some (A.dates.head hd,
        dotProd
          (allocShares amt (p.weights.map (fun w => w / 100))
            (p.tickers.map (fun t => priceAt A t 0)))
          (p.tickers.map (fun t => priceAt A t 0))) ∧
    dotProd
        (allocShares amt (p.weights.map (fun w => w / 100))
          (p.tickers.map (fun t => priceAt A t 0)))
        (p.tickers.map (fun t => priceAt A t 0)) ≤ amt ∧
    amt -
        dotProd
          (allocShares amt (p.weights.map (fun w => w / 100))
            (p.tickers.map (fun t => priceAt A t 0)))
          (p.tickers.map (fun t => priceAt A t 0)) ≤
      amt * EPSILON *
        (List.zipWith (fun w q => w / q) (p.weights.map (fun w => w / 100))
          (p.tickers.map (fun t => priceAt A t 0))).sum := by
  have ht : p.tickers ≠ [] := by
    intro h
    rw [h] at hlen
    simp only [List.length_nil] at hlen
    rw [List.eq_nil_of_length_eq_zero hlen] at hsum
    norm_num at hsum
  have hbounds := alloc_dot_bounds amt hamt
    (p.weights.map (fun w => w / 100)) (p.tickers.map (fun t => priceAt A t 0))
    (by simp [hlen])
    (by
      intro w hwm
      obtain ⟨w0, hw0, rfl⟩ := List.mem_map.mp hwm
      exact div_nonneg (hw w0 hw0) (by norm_num))
    (by
      intro q hqm
      obtain ⟨t, htm, rfl⟩ := List.mem_map.mp hqm
      exact hp t htm)
  have hnorm : (p.weights.map (fun w => w / 100)).sum = 1 := by
    rw [sumMapDiv, hsum]
    norm_num
  rw [hnorm, mul_one] at hbounds
  refine ⟨?_, hbounds.1, hbounds.2⟩
  unfold runPortfolioSimulation
  rw [if_neg (by push_neg; exact ⟨ht, hd⟩)]
  rw [if_neg (by
    rintro ⟨q, hq, rfl⟩
    obtain ⟨t, htm, hq2⟩ := List.mem_map.mp hq
    exact absurd hq2 (ne_of_gt (hp t htm)))]
  dsimp only
  exact simLoop_enum_head p.tickers (p.weights.map (fun w => w / 100)) A
    (getRebalancingDates A.dates p.rebalancingPeriod) A.dates
    (allocShares amt (p.weights.map (fun w => w / 100))
      (p.tickers.map (fun t => priceAt A t 0))) hd

/-- Witness for C3 at a concrete one-ticker, one-date input. -/
theorem C3_witness :
    (runPortfolioSimulation (fun _ _ => 0) (fun _ => 0)
        ⟨"p", ["A"], [(100 : ℚ)], Period.never⟩
        ⟨[⟨2020, 1, 1⟩], [("A", [(50 : ℚ)])]⟩ 1000 none).portfolioHistory.head? =
      some ((⟨2020, 1, 1⟩ : CalDate),
        dotProd
          (allocShares 1000 ([(100 : ℚ)].map (fun w => w / 100))
            (["A"].map (fun t =>
              priceAt ⟨[⟨2020, 1, 1⟩], [("A", [(50 : ℚ)])]⟩ t 0)))
          (["A"].map (fun t =>
            priceAt ⟨[⟨2020, 1, 1⟩], [("A", [(50 : ℚ)])]⟩ t 0))) :=
  (C3_initial_value_matches_amount (fun _ _ => 0) (fun _ => 0)
    ⟨"p", ["A"], [(100 : ℚ)], Period.never⟩
    ⟨[⟨2020, 1, 1⟩], [("A", [(50 : ℚ)])]⟩ 1000 none
    (by decide) (by decide)
    (by norm_num) (by norm_num)
    (by
      intro t htm
      rw [List.mem_singleton.mp htm]
      norm_num [priceAt, lookupPrices])
    (by norm_num)).1

/-- C10: at a trigger date with all prices strictly positive and weights
summing to 100, the loop records the PRE-rebalance mark-to-market value for
that date and only the tail continues with the reallocated shares; and the
reallocated shares mark back to the recorded value from below, within
`value × EPSILON × Σ (wᵢ/100)/pᵢ`. -/
theorem C10_rebalance_marks_to_market (tickers : List String)
    (weights : List ℚ) (A : AlignedData) (rebalDates : List CalDate)
    (i : Nat) (d : CalDate) (rest : List (Nat × CalDate)) (shares : List ℚ)
    (hreb : d ∈ rebalDates)
    (hlen : weights.length = tickers.length)
    (hw : ∀ w ∈ weights, 0 ≤ w) (hsum : weights.sum = 100)
    (hpos : ∀ q ∈ tickers.map (fun t => priceAt A t i), 0 < q)
    (hval : 0 ≤ dotProd shares (tickers.map (fun t => priceAt A t i))) :
    simLoop tickers (weights.map (fun w => w / 100)) A rebalDates
        ((i, d) :: rest) shares =
      (d, dotProd shares (tickers.map (fun t => priceAt A t i))) ::
        simLoop tickers (weights.map (fun w => w / 100)) A rebalDates rest
          (allocShares (dotProd shares (tickers.map (fun t => priceAt A t i)))
            (weights.map (fun w => w / 100))
            (tickers.map (fun t => priceAt A t i))) ∧
    dotProd
        (allocShares (dotProd shares (tickers.map (fun t => priceAt A t i)))
          (weights.map (fun w => w / 100))
          (tickers.map (fun t => priceAt A t i)))
        (tickers.map (fun t => priceAt A t i)) ≤
      dotProd shares (tickers.map (fun t => priceAt A t i)) ∧
    dotProd shares (tickers.map (fun t => priceAt A t i)) -
        dotProd
          (allocShares (dotProd shares (tickers.map (fun t => priceAt A t i)))
            (weights.map (fun w => w / 100))
            (tickers.map (fun t => priceAt A t i)))
          (tickers.map (fun t => priceAt A t i)) ≤
      dotProd shares (tickers.map (fun t => priceAt A t i)) * EPSILON *
        (List.zipWith (fun w q => w / q) (weights.map (fun w => w / 100))
          (tickers.map (fun t => priceAt A t i))).sum := by
  have hz : ¬ ∃ p ∈ tickers.map (fun t => priceAt A t i), p = 0 := by
    rintro ⟨q, hq, rfl⟩
    exact absurd (hpos 0 hq) (lt_irrefl 0)
  have hbounds := alloc_dot_bounds
    (dotProd shares (tickers.map (fun t => priceAt A t i))) hval
    (weights.map (fun w => w / 100)) (tickers.map (fun t => priceAt A t i))
    (by simp [hlen])
    (by
      intro w hwm
      obtain ⟨w0, hw0, rfl⟩ := List.mem_map.mp hwm
      exact div_nonneg (hw w0 hw0) (by norm_num))
    hpos
  have hnorm : (weights.map (fun w => w / 100)).sum = 1 := by
    rw [sumMapDiv, hsum]
    norm_num
  rw [hnorm, mul_one] at hbounds
  refine ⟨?_, hbounds.1, hbounds.2⟩
  rw [simLoop_cons, if_pos hreb, if_neg hz]

/-- Witness for C10 at a concrete one-ticker rebalance step. -/
theorem C10_witness :
    dotProd
        (allocShares
          (dotProd [(2 : ℚ)]
            (["A"].map (fun t =>
              priceAt ⟨[⟨2020, 1, 1⟩], [("A", [(50 : ℚ)])]⟩ t 0)))
          ([(100 : ℚ)].map (fun w => w / 100))
          (["A"].map (fun t =>
            priceAt ⟨[⟨2020, 1, 1⟩], [("A", [(50 : ℚ)])]⟩ t 0)))
        (["A"].map (fun t =>
          priceAt ⟨[⟨2020, 1, 1⟩], [("A", [(50 : ℚ)])]⟩ t 0)) ≤
      dotProd [(2 : ℚ)]
        (["A"].map (fun t =>
          priceAt ⟨[⟨2020, 1, 1⟩], [("A", [(50 : ℚ)])]⟩ t 0)) :=
  (C10_rebalance_marks_to_market ["A"] [(100 : ℚ)]
    ⟨[⟨2020, 1, 1⟩], [("A", [(50 : ℚ)])]⟩ [⟨2020, 1, 1⟩] 0 ⟨2020, 1, 1⟩ []
    [(2 : ℚ)]
    (List.mem_singleton.mpr rfl) (by decide) (by norm_num) (by norm_num)
    (by
      intro q hq
      rw [List.mem_singleton.mp hq]
      norm_num [priceAt, lookupPrices])
    (by norm_num [dotProd, priceAt, lookupPrices])).2.1

theorem variance_p_eq_spec (l : List ℚ) (h : 2 ≤ l.length) :
    variance_p l = specPopVariance l := by
  unfold variance_p specPopVariance
  rw [if_neg (by omega)]

theorem covariance_eq_spec (l1 l2 : List ℚ) (hlen : l1.length = l2.length)
    (h : 2 ≤ l1.length) : covariance l1 l2 = specPopCovariance l1 l2 := by
  unfold covariance specPopCovariance
  rw [if_neg (by push_neg; exact ⟨hlen, by omega⟩)]

/-- The `volatility` field in the main branch: `sqrt` of the sample variance
(denominator `n - 1`) of the daily returns, times `sqrt` of 252. -/
theorem calculateMetrics_volatility (powf : ℚ → ℚ → ℚ) (sqrtf : ℚ → ℚ)
    (hist : List (CalDate × ℚ)) (bench : Option (List (CalDate × ℚ)))
    (rf : ℚ) (h2 : 2 ≤ hist.length)
    (hs : EPSILON ≤ (hist.getD 0 defaultEntry).2)
    (hdr : 2 ≤ (dailyReturnsOf (hist.map Prod.snd)).length) :
    (calculateMetrics powf sqrtf hist bench rf).volatility =
      sqrtf (specSampleVariance (dailyReturnsOf (hist.map Prod.snd))) *
        sqrtf TRADING_DAYS_PER_YEAR := by
  unfold calculateMetrics
  rw [if_neg (by omega), if_neg (not_lt.mpr hs)]
  dsimp only
  rw [if_neg (by omega)]
  rfl

/-- The `cagr` field in the non-degenerate branches. -/
theorem calculateMetrics_cagr (powf : ℚ → ℚ → ℚ) (sqrtf : ℚ → ℚ)
    (hist : List (CalDate × ℚ)) (bench : Option (List (CalDate × ℚ)))
    (rf : ℚ) (h2 : 2 ≤ hist.length)
    (hs : EPSILON ≤ (hist.getD 0 defaultEntry).2) :
    (calculateMetrics powf sqrtf hist bench rf).cagr =
      cagrExpr powf
        (yearsBetween (hist.getD 0 defaultEntry).1
          (hist.getD (hist.length - 1) defaultEntry).1)
        (hist.getD 0 defaultEntry).2
        (hist.getD (hist.length - 1) defaultEntry).2 := by
  unfold calculateMetrics
  rw [if_neg (by omega), if_neg (not_lt.mpr hs)]
  dsimp only
  split
  · rfl
  · rfl

/-- The `(beta, alpha)` pair in the main branch with a matching benchmark. -/
theorem calculateMetrics_beta_alpha (powf : ℚ → ℚ → ℚ) (sqrtf : ℚ → ℚ)
    (hist b : List (CalDate × ℚ)) (rf : ℚ)
    (h2 : 2 ≤ hist.length)
    (hs : EPSILON ≤ (hist.getD 0 defaultEntry).2)
    (hdr : 2 ≤ (dailyReturnsOf (hist.map Prod.snd)).length)
    (hb : b.length = hist.length)
    (heq : (dailyReturnsOf (hist.map Prod.snd)).length =
      (dailyReturnsOf (b.map Prod.snd)).length) :
    ((calculateMetrics powf sqrtf hist (some b) rf).beta,
      (calculateMetrics powf sqrtf hist (some b) rf).alpha) =
      (if EPSILON < variance_p (dailyReturnsOf (b.map Prod.snd)) then
        (some (covariance (dailyReturnsOf (hist.map Prod.snd))
            (dailyReturnsOf (b.map Prod.snd)) /
          variance_p (dailyReturnsOf (b.map Prod.snd))),
         some (cagrExpr powf
            (yearsBetween (hist.getD 0 defaultEntry).1
              (hist.getD (hist.length - 1) defaultEntry).1)
            (hist.getD 0 defaultEntry).2
            (hist.getD (hist.length - 1) defaultEntry).2 -
          (rf + covariance (dailyReturnsOf (hist.map Prod.snd))
              (dailyReturnsOf (b.map Prod.snd)) /
            variance_p (dailyReturnsOf (b.map Prod.snd)) *
            (cagrExpr powf
              (yearsBetween (hist.getD 0 defaultEntry).1
                (hist.getD (hist.length - 1) defaultEntry).1)
              (b.getD 0 defaultEntry).2 (b.getD (b.length - 1) defaultEntry).2
              - rf))))
      else (none, none)) := by
  have hndr : ¬ (dailyReturnsOf (hist.map Prod.snd)).length < 2 := by omega
  have hcc : (dailyReturnsOf (hist.map Prod.snd)).length =
      (dailyReturnsOf (b.map Prod.snd)).length ∧
      1 < (dailyReturnsOf (hist.map Prod.snd)).length := ⟨heq, by omega⟩
  unfold calculateMetrics
  rw [if_neg (by omega), if_neg (not_lt.mpr hs)]
  dsimp only
  rw [if_neg hndr, if_pos hb, if_pos hcc]

/-- C6: in the main branch of `calculateMetrics`, volatility is the `sqrt` of
the SAMPLE variance (denominator `n - 1`) of the daily returns times
`√252`; beta is absent whenever the benchmark return variance is `≤ EPSILON`;
and when that variance exceeds `EPSILON`, beta is the POPULATION covariance
over the POPULATION variance (both denominator `n`) and
`alpha = cagr - (rf + beta × (benchCagr - rf))` exactly. -/
theorem C6_beta_alpha_volatility (powf : ℚ → ℚ → ℚ) (sqrtf : ℚ → ℚ)
    (hist b : List (CalDate × ℚ)) (rf : ℚ)
    (h2 : 2 ≤ hist.length)
    (hs : EPSILON ≤ (hist.getD 0 defaultEntry).2)
    (hdr : 2 ≤ (dailyReturnsOf (hist.map Prod.snd)).length)
    (hb : b.length = hist.length)
    (heq : (dailyReturnsOf (hist.map Prod.snd)).length =
      (dailyReturnsOf (b.map Prod.snd)).length) :
    (calculateMetrics powf sqrtf hist (some b) rf).volatility =
      sqrtf (specSampleVariance (dailyReturnsOf (hist.map Prod.snd))) *
        sqrtf TRADING_DAYS_PER_YEAR ∧
    (variance_p (dailyReturnsOf (b.map Prod.snd)) ≤ EPSILON →
      (calculateMetrics powf sqrtf hist (some b) rf).beta = none ∧
      (calculateMetrics powf sqrtf hist (some b) rf).alpha = none) ∧
    (EPSILON < variance_p (dailyReturnsOf (b.map Prod.snd)) →
      (calculateMetrics powf sqrtf hist (some b) rf).beta =
        some (specPopCovariance (dailyReturnsOf (hist.map Prod.snd))
            (dailyReturnsOf (b.map Prod.snd)) /
          specPopVariance (dailyReturnsOf (b.map Prod.snd))) ∧
      (calculateMetrics powf sqrtf hist (some b) rf).alpha =
        some ((calculateMetrics powf sqrtf hist (some b) rf).cagr -
          (rf + (specPopCovariance (dailyReturnsOf (hist.map Prod.snd))
              (dailyReturnsOf (b.map Prod.snd)) /
            specPopVariance (dailyReturnsOf (b.map Prod.snd))) *
            (cagrExpr powf
              (yearsBetween (hist.getD 0 defaultEntry).1
                (hist.getD (hist.length - 1) defaultEntry).1)
              (b.getD 0 defaultEntry).2 (b.getD (b.length - 1) defaultEntry).2
              - rf)))) := by
  have hbr2 : 2 ≤ (dailyReturnsOf (b.map Prod.snd)).length := heq ▸ hdr
  have hpair := calculateMetrics_beta_alpha powf sqrtf hist b rf h2 hs hdr hb heq
  refine ⟨calculateMetrics_volatility powf sqrtf hist (some b) rf h2 hs hdr,
    ?_, ?_⟩
  · intro hle
    rw [if_neg (not_lt.mpr hle), Prod.mk.injEq] at hpair
    exact hpair
  · intro hlt
    rw [if_pos hlt, Prod.mk.injEq,
      covariance_eq_spec _ _ heq hdr, variance_p_eq_spec _ hbr2] at hpair
    rw [calculateMetrics_cagr powf sqrtf hist (some b) rf h2 hs]
    exact hpair

/-- Witness for C6 at a concrete three-point history and benchmark. -/
theorem C6_witness :
    (calculateMetrics (fun _ _ => 0) (fun x => x)
        [(⟨2020, 1, 1⟩, 200), (⟨2020, 1, 2⟩, 220), (⟨2020, 1, 3⟩, 198)]
        (some [(⟨2020, 1, 1⟩, 100), (⟨2020, 1, 2⟩, 110), (⟨2020, 1, 3⟩, 99)])
        0).volatility =
      (fun x => x)
          (specSampleVariance (dailyReturnsOf
            ([((⟨2020, 1, 1⟩ : CalDate), (200 : ℚ)), (⟨2020, 1, 2⟩, 220),
              (⟨2020, 1, 3⟩, 198)].map Prod.snd))) *
        (fun x => x) TRADING_DAYS_PER_YEAR :=
  (C6_beta_alpha_volatility (fun _ _ => 0) (fun x => x)
    [(⟨2020, 1, 1⟩, 200), (⟨2020, 1, 2⟩, 220), (⟨2020, 1, 3⟩, 198)]
    [(⟨2020, 1, 1⟩, 100), (⟨2020, 1, 2⟩, 110), (⟨2020, 1, 3⟩, 99)] 0
    (by decide)
    (by norm_num [EPSILON, defaultEntry])
    (by norm_num [dailyReturnsOf, EPSILON])
    (by decide)
    (by norm_num [dailyReturnsOf, EPSILON])).1

theorem createAligned_dates_def (raw : RawPriceData) (startD endD : CalDate) :
    (createAlignedPriceData raw startD endD).dates =
      (List.insertionSort (· ≤ ·)
        ((allDatesOf raw).filter (fun d => startD ≤ d ∧ d ≤ endD))).filter
        (fun d => (tickersOf raw).all (fun t => (priceOn raw t d).isSome)) := rfl

theorem createAligned_prices_def (raw : RawPriceData) (startD endD : CalDate) :
    (createAlignedPriceData raw startD endD).prices =
      (tickersOf raw).map (fun t =>
        (t, (createAlignedPriceData raw startD endD).dates.map
          (fun d => (priceOn raw t d).getD 0))) := rfl

theorem lookupPrices_map_self (f : String → List ℚ) :
    ∀ (ts : List String) (t : String), t ∈ ts →
      lookupPrices (ts.map (fun s => (s, f s))) t = some (f t) := by
  intro ts
  induction ts with
  | nil => intro t ht; simp at ht
  | cons s ss ih =>
      intro t ht
      rw [List.map_cons, lookupPrices]
      by_cases h : s = t
      · subst h
        rw [if_pos rfl]
      · rw [if_neg h]
        rcases List.mem_cons.mp ht with rfl | ht2
        · exact absurd rfl h
        · exact ih t ht2

theorem lookupTicker_mem : ∀ (raw : RawPriceData) (t : String) (m : PriceMap),
    lookupTicker raw t = some m → (t, m) ∈ raw := by
  intro raw
  induction raw with
  | nil => intro t m h; simp [lookupTicker] at h
  | cons e rest ih =>
      intro t m h
      obtain ⟨t0, m0⟩ := e
      rw [lookupTicker] at h
      by_cases he : t0 = t
      · rw [if_pos he] at h
        subst he
        rw [Option.some.inj h]
        exact List.mem_cons_self _ _
      · rw [if_neg he] at h
        exact List.mem_cons_of_mem _ (ih t m h)

theorem lookupDate_isSome_mem : ∀ (m : PriceMap) (d : CalDate),
    (lookupDate m d).isSome = true → d ∈ m.map Prod.fst := by
  intro m
  induction m with
  | nil => intro d h; simp [lookupDate] at h
  | cons e rest ih =>
      intro d h
      obtain ⟨d0, p⟩ := e
      rw [lookupDate] at h
      by_cases he : d0 = d
      · subst he
        exact List.mem_cons_self _ _
      · rw [if_neg he] at h
        exact List.mem_cons_of_mem _ (ih d h)

theorem mem_allDatesOf_of_priceOn (raw : RawPriceData) (t : String)
    (d : CalDate) (h : (priceOn raw t d).isSome = true) :
    d ∈ allDatesOf raw := by
  unfold priceOn at h
  cases hl : lookupTicker raw t with
  | none => rw [hl] at h; simp at h
  | some m =>
      rw [hl] at h
      simp only [Option.some_bind] at h
      have hmem : (t, m) ∈ raw := lookupTicker_mem raw t m hl
      have hdm : d ∈ m.map Prod.fst := lookupDate_isSome_mem m d h
      unfold allDatesOf
      rw [List.mem_dedup, List.mem_flatMap]
      exact ⟨(t, m), hmem, hdm⟩

/-- C1: the aligned calendar is strictly increasing (hence duplicate-free),
lies inside the request window, keeps exactly the candidate dates on which
every ticker of the (nonempty) input mapping has a price, and each ticker's
aligned price list pairs index-for-index with the calendar. -/
theorem C1_aligned_calendar (raw : RawPriceData) (startD endD : CalDate)
    (hne : raw ≠ []) :
    (createAlignedPriceData raw startD endD).dates.Sorted (· < ·) ∧
    (∀ d ∈ (createAlignedPriceData raw startD endD).dates,
      startD ≤ d ∧ d ≤ endD) ∧
    (∀ d, d ∈ (createAlignedPriceData raw startD endD).dates ↔
      (startD ≤ d ∧ d ≤ endD ∧
        ∀ t ∈ tickersOf raw, (priceOn raw t d).isSome = true)) ∧
    (∀ t ∈ tickersOf raw, ∃ ps,
      lookupPrices (createAlignedPriceData raw startD endD).prices t =
        some ps ∧
      ps.length = (createAlignedPriceData raw startD endD).dates.length ∧
      ∀ i (hi : i < (createAlignedPriceData raw startD endD).dates.length),
        priceOn raw t
            ((createAlignedPriceData raw startD endD).dates.get ⟨i, hi⟩) =
          ps.get? i) := by
  have hsortS : (List.insertionSort (· ≤ ·)
      ((allDatesOf raw).filter (fun d => startD ≤ d ∧ d ≤ endD))).Sorted
        (· ≤ ·) :=
    List.sorted_insertionSort _ _
  have hnodupS : (List.insertionSort (· ≤ ·)
      ((allDatesOf raw).filter (fun d => startD ≤ d ∧ d ≤ endD))).Nodup :=
    ((List.perm_insertionSort _ _).nodup_iff).mpr
      ((List.nodup_dedup _).filter _)
  have hsortA : (createAlignedPriceData raw startD endD).dates.Sorted
      (· ≤ ·) := by
    rw [createAligned_dates_def]
    exact hsortS.filter _
  have hnodupA : (createAlignedPriceData raw startD endD).dates.Nodup := by
    rw [createAligned_dates_def]
    exact hnodupS.filter _
  have hmem : ∀ d, d ∈ (createAlignedPriceData raw startD endD).dates ↔
      (d ∈ allDatesOf raw ∧ (startD ≤ d ∧ d ≤ endD) ∧
        ∀ t ∈ tickersOf raw, (priceOn raw t d).isSome = true) := by
    intro d
    rw [createAligned_dates_def, List.mem_filter, List.mem_insertionSort,
      List.mem_filter]
    simp only [List.all_eq_true, decide_eq_true_eq]
    tauto
  refine ⟨hsortA.lt_of_le hnodupA, ?_, ?_, ?_⟩
  · intro d hd
    exact ((hmem d).mp hd).2.1
  · intro d
    rw [hmem d]
    constructor
    · rintro ⟨_, hwin, hall⟩
      exact ⟨hwin.1, hwin.2, hall⟩
    · rintro ⟨hw1, hw2, hall⟩
      refine ⟨?_, ⟨hw1, hw2⟩, hall⟩
      cases raw with
      | nil => exact absurd rfl hne
      | cons e rest =>
          refine mem_allDatesOf_of_priceOn _ e.1 d (hall e.1 ?_)
          exact List.mem_map_of_mem _ (List.mem_cons_self _ _)
  · intro t htm
    refine ⟨(createAlignedPriceData raw startD endD).dates.map
      (fun d => (priceOn raw t d).getD 0), ?_, List.length_map _ _, ?_⟩
    · rw [createAligned_prices_def]
      exact lookupPrices_map_self _ (tickersOf raw) t htm
    · intro i hi
      have hdm : (createAlignedPriceData raw startD endD).dates.get ⟨i, hi⟩ ∈
          (createAlignedPriceData raw startD endD).dates :=
        List.get_mem _ _ _
      have hsome := ((hmem _).mp hdm).2.2 t htm
      obtain ⟨v, hv⟩ := Option.isSome_iff_exists.mp hsome
      rw [List.get?_map, List.get?_eq_get hi]
      simp only [Option.map_some']
      rw [hv]
      rfl

/-- Witness for C1: a one-ticker mapping with one in-window date. -/
theorem C1_witness :
    (createAlignedPriceData [("A", [(⟨2020, 1, 2⟩, (5 : ℚ))])]
        ⟨2020, 1, 1⟩ ⟨2020, 12, 31⟩).dates.Sorted (· < ·) :=
  (C1_aligned_calendar [("A", [(⟨2020, 1, 2⟩, (5 : ℚ))])] ⟨2020, 1, 1⟩
    ⟨2020, 12, 31⟩ (List.cons_ne_nil _ _)).1

theorem covariance_self (l : List ℚ) : covariance l l = variance_p l := by
  unfold covariance variance_p
  by_cases h : l.length < 2
  · rw [if_pos (Or.inr h), if_pos h]
  · rw [if_neg (by push_neg; exact ⟨rfl, not_lt.mp h⟩), if_neg h]
    dsimp only
    have : List.zipWith
        (fun a b => (a - l.sum / (l.length : ℚ)) * (b - l.sum / (l.length : ℚ)))
        l l = l.map (fun v => (v - l.sum / (l.length : ℚ)) ^ 2) := by
      rw [List.zipWith_same]
      exact List.map_congr_left (fun a _ => by ring)
    rw [this]

/-- Scaling a value series by a positive constant leaves the skip-guarded
daily returns unchanged, provided both the scaled and unscaled previous
values clear `EPSILON`. -/
theorem dailyReturns_smul (c : ℚ) (hc : 0 < c) :
    ∀ (l : List ℚ), (∀ v ∈ l, EPSILON < v * c) → (∀ v ∈ l, EPSILON < v) →
      dailyReturnsOf (l.map (fun v => v * c)) = dailyReturnsOf l := by
  intro l
  induction l with
  | nil => intro _ _; rfl
  | cons v0 rest ih =>
      intro h1 h2
      cases rest with
      | nil => rfl
      | cons v1 rest2 =>
          have hv0c : EPSILON < v0 * c := h1 v0 (List.mem_cons_self _ _)
          have hv0 : EPSILON < v0 := h2 v0 (List.mem_cons_self _ _)
          have htail := ih (fun v hv => h1 v (List.mem_cons_of_mem _ hv))
            (fun v hv => h2 v (List.mem_cons_of_mem _ hv))
          rw [List.map_cons, List.map_cons]
          simp only [dailyReturnsOf]
          rw [if_pos hv0c, if_pos hv0]
          rw [mul_div_mul_right v1 v0 (ne_of_gt hc)]
          have hmc : v1 * c :: List.map (fun v => v * c) rest2 =
              List.map (fun v => v * c) (v1 :: rest2) := rfl
          rw [hmc, htail]

theorem runSingle_eq (t : String) (A : AlignedData) (amt : ℚ) (pl : List ℚ)
    (hpl : lookupPrices A.prices t = some pl) (hplne : pl ≠ [])
    (hp0 : pl.getD 0 0 ≠ 0) :
    runSingleAssetSimulation t A amt =
      List.zipWith (fun p d => (d, p * (amt / pl.getD 0 0))) pl A.dates := by
  unfold runSingleAssetSimulation
  rw [hpl]
  dsimp only
  rw [if_neg hplne, if_neg hp0]

theorem priceAt_eq (t : String) (A : AlignedData) (pl : List ℚ)
    (hpl : lookupPrices A.prices t = some pl) (i : Nat) :
    priceAt A t i = pl.getD i 0 := by
  unfold priceAt
  rw [hpl]
  rfl

/-- A 100%-weight single-ticker buy-and-hold portfolio is pointwise
proportional to the single-asset benchmark, scaled by `p₀ / (p₀ + EPSILON)`. -/
theorem single_asset_proportional (powf : ℚ → ℚ → ℚ) (sqrtf : ℚ → ℚ)
    (name t : String) (A : AlignedData) (amt : ℚ) (pl : List ℚ)
    (hpl : lookupPrices A.prices t = some pl)
    (hlen : pl.length = A.dates.length)
    (hpos : ∀ q ∈ pl, 0 < q)
    (hd : A.dates ≠ []) :
    (runPortfolioSimulation powf sqrtf ⟨name, [t], [100], Period.never⟩ A amt
        (some (runSingleAssetSimulation t A amt))).portfolioHistory =
      (runSingleAssetSimulation t A amt).map
        (fun e => (e.1, e.2 * (pl.getD 0 0 / (pl.getD 0 0 + EPSILON)))) := by
  have hplne : pl ≠ [] := by
    intro hx
    rw [hx] at hlen
    exact hd (List.eq_nil_of_length_eq_zero hlen.symm)
  have hp0mem : pl.getD 0 0 ∈ pl := by
    cases pl with
    | nil => exact absurd rfl hplne
    | cons x xs => exact List.mem_cons_self _ _
  have hp0pos : 0 < pl.getD 0 0 := hpos _ hp0mem
  have hp0 : pl.getD 0 0 ≠ 0 := ne_of_gt hp0pos
  have hp0e : pl.getD 0 0 + EPSILON ≠ 0 := by
    have := EPSILON_pos
    positivity
  have hrunhist : (runPortfolioSimulation powf sqrtf
      ⟨name, [t], [100], Period.never⟩ A amt
      (some (runSingleAssetSimulation t A amt))).portfolioHistory =
      A.dates.enum.map (fun e =>
        (e.2, dotProd
          (allocShares amt ([(100 : ℚ)].map (fun w => w / 100))
            ([t].map (fun s => priceAt A s 0)))
          ([t].map (fun s => priceAt A s e.1)))) := by
    unfold runPortfolioSimulation
    rw [if_neg (by push_neg; exact ⟨List.cons_ne_nil _ _, hd⟩)]
    rw [if_neg (by
      rintro ⟨q, hq, rfl⟩
      obtain ⟨s, hs, hq2⟩ := List.mem_map.mp hq
      rw [List.mem_singleton.mp hs] at hq2
      rw [priceAt_eq t A pl hpl 0] at hq2
      exact absurd hq2 hp0)]
    dsimp only
    rw [show getRebalancingDates A.dates Period.never = ([] : List CalDate)
      from rfl]
    exact simLoop_no_rebal _ _ _ _ _
  rw [hrunhist, runSingle_eq t A amt pl hpl hplne hp0]
  apply List.ext
  intro n
  by_cases hn : n < A.dates.length
  · have hnp : n < pl.length := by rw [hlen]; exact hn
    rw [List.get?_map, List.get?_enum, List.get?_eq_get hn]
    rw [List.get?_map, List.get?_zipWith', List.get?_eq_get hnp,
      List.get?_eq_get hn]
    simp only [Option.map_some', Option.some_bind]
    have hpan : priceAt A t n = pl.get ⟨n, hnp⟩ := by
      rw [priceAt_eq t A pl hpl n, List.getD_eq_get? , List.get?_eq_get hnp]
      rfl
    have hpa0 : priceAt A t 0 = pl.getD 0 0 := priceAt_eq t A pl hpl 0
    simp only [List.map_cons, List.map_nil, hpan, hpa0]
    congr 1
    apply Prod.ext
    · rfl
    · show dotProd
          (allocShares amt [(100 : ℚ) / 100] [pl.getD 0 0]) [pl.get ⟨n, hnp⟩] =
        pl.get ⟨n, hnp⟩ * (amt / pl.getD 0 0) * (pl.getD 0 0 / (pl.getD 0 0 + EPSILON))
      simp only [allocShares, dotProd, List.zipWith_cons_cons,
        List.zipWith_nil_right, List.zipWith_nil_left, List.sum_cons,
        List.sum_nil]
      rw [show (100 : ℚ) / 100 = 1 from by norm_num, mul_one, add_zero,
        mul_assoc, div_mul_div_comm, mul_comm amt (pl.getD 0 0),
        mul_div_mul_left _ _ hp0]
      ring
  · rw [List.get?_eq_none.mpr, List.get?_eq_none.mpr]
    · rw [List.length_map, List.length_zipWith, hlen, min_self]
      omega
    · rw [List.length_map, List.enum_length]
      omega

theorem runPortfolio_metrics_eq (powf : ℚ → ℚ → ℚ) (sqrtf : ℚ → ℚ)
    (p : PortfolioConfig) (A : AlignedData) (amt : ℚ)
    (bench : Option (List (CalDate × ℚ)))
    (ht : p.tickers ≠ []) (hd : A.dates ≠ [])
    (hz : ¬ ∃ q ∈ p.tickers.map (fun s => priceAt A s 0), q = 0) :
    (runPortfolioSimulation powf sqrtf p A amt bench).metrics =
      calculateMetrics powf sqrtf
        (runPortfolioSimulation powf sqrtf p A amt bench).portfolioHistory
        bench RISK_FREE_RATE := by
  unfold runPortfolioSimulation
  rw [if_neg (by push_neg; exact ⟨ht, hd⟩), if_neg hz]

theorem cagrExpr_scale (powf : ℚ → ℚ → ℚ) (y sv ev c : ℚ) (hc : c ≠ 0) :
    cagrExpr powf y (sv * c) (ev * c) = cagrExpr powf y sv ev := by
  unfold cagrExpr
  rw [mul_div_mul_right ev sv hc]

theorem getD_fst_map_scale (l : List (CalDate × ℚ)) (c : ℚ) (i : Nat)
    (h : i < l.length) :
    ((l.map (fun e => (e.1, e.2 * c))).getD i defaultEntry).1 =
      (l.getD i defaultEntry).1 := by
  rw [List.getD_eq_get?, List.getD_eq_get?, List.get?_map, List.get?_eq_get h]
  rfl

theorem getD_snd_map_scale (l : List (CalDate × ℚ)) (c : ℚ) (i : Nat)
    (h : i < l.length) :
    ((l.map (fun e => (e.1, e.2 * c))).getD i defaultEntry).2 =
      (l.getD i defaultEntry).2 * c := by
  rw [List.getD_eq_get?, List.getD_eq_get?, List.get?_map, List.get?_eq_get h]
  rfl

/-- A 100%-weight single-ticker `never` portfolio, measured against the same
ticker as benchmark, has beta exactly 1 and alpha exactly 0 whenever they are
computed at all. -/
theorem single_asset_beta_alpha (powf : ℚ → ℚ → ℚ) (sqrtf : ℚ → ℚ)
    (name t : String) (A : AlignedData) (amt : ℚ) (pl : List ℚ)
    (hpl : lookupPrices A.prices t = some pl)
    (hlen : pl.length = A.dates.length)
    (hpos : ∀ q ∈ pl, 0 < q)
    (hd : A.dates ≠ [])
    (hv : ∀ e ∈ (runPortfolioSimulation powf sqrtf
        ⟨name, [t], [100], Period.never⟩ A amt
        (some (runSingleAssetSimulation t A amt))).portfolioHistory,
      EPSILON < e.2)
    (hvar : EPSILON < variance_p (dailyReturnsOf
      ((runSingleAssetSimulation t A amt).map Prod.snd)))
    (hdr : 2 ≤ (dailyReturnsOf
      ((runSingleAssetSimulation t A amt).map Prod.snd)).length)
    (h2 : 2 ≤ A.dates.length) :
    (runPortfolioSimulation powf sqrtf ⟨name, [t], [100], Period.never⟩ A amt
      (some (runSingleAssetSimulation t A amt))).metrics.beta = some 1 ∧
    (runPortfolioSimulation powf sqrtf ⟨name, [t], [100], Period.never⟩ A amt
      (some (runSingleAssetSimulation t A amt))).metrics.alpha = some 0 := by
  have hplne : pl ≠ [] := by
    intro hx
    rw [hx] at hlen
    exact hd (List.eq_nil_of_length_eq_zero hlen.symm)
  have hp0mem : pl.getD 0 0 ∈ pl := by
    cases pl with
    | nil => exact absurd rfl hplne
    | cons x xs => exact List.mem_cons_self _ _
  have hp0pos : 0 < pl.getD 0 0 := hpos _ hp0mem
  have hp0 : pl.getD 0 0 ≠ 0 := ne_of_gt hp0pos
  have hp0epos : (0 : ℚ) < pl.getD 0 0 + EPSILON := by
    linarith [EPSILON_pos]
  have hc : 0 < pl.getD 0 0 / (pl.getD 0 0 + EPSILON) :=
    div_pos hp0pos hp0epos
  have hc1 : pl.getD 0 0 / (pl.getD 0 0 + EPSILON) ≤ 1 := by
    rw [div_le_one hp0epos]
    linarith [EPSILON_pos]
  have hprop := single_asset_proportional powf sqrtf name t A amt pl hpl hlen
    hpos hd
  have hblen : (runSingleAssetSimulation t A amt).length = A.dates.length := by
    rw [runSingle_eq t A amt pl hpl hplne hp0, List.length_zipWith, hlen,
      min_self]
  have hPlen : (runPortfolioSimulation powf sqrtf
      ⟨name, [t], [100], Period.never⟩ A amt
      (some (runSingleAssetSimulation t A amt))).portfolioHistory.length =
      A.dates.length := by
    rw [hprop, List.length_map, hblen]
  have hvals : (runPortfolioSimulation powf sqrtf
      ⟨name, [t], [100], Period.never⟩ A amt
      (some (runSingleAssetSimulation t A amt))).portfolioHistory.map
        Prod.snd =
      ((runSingleAssetSimulation t A amt).map Prod.snd).map
        (fun v => v * (pl.getD 0 0 / (pl.getD 0 0 + EPSILON))) := by
    rw [hprop, List.map_map, List.map_map]
    rfl
  have hvc : ∀ v ∈ (runSingleAssetSimulation t A amt).map Prod.snd,
      EPSILON < v * (pl.getD 0 0 / (pl.getD 0 0 + EPSILON)) := by
    intro v hvm
    have : v * (pl.getD 0 0 / (pl.getD 0 0 + EPSILON)) ∈
        (runPortfolioSimulation powf sqrtf
          ⟨name, [t], [100], Period.never⟩ A amt
          (some (runSingleAssetSimulation t A amt))).portfolioHistory.map
            Prod.snd := by
      rw [hvals]
      exact List.mem_map_of_mem _ hvm
    obtain ⟨e, he, hev⟩ := List.mem_map.mp this
    rw [← hev]
    exact hv e he
  have hvb : ∀ v ∈ (runSingleAssetSimulation t A amt).map Prod.snd,
      EPSILON < v := by
    intro v hvm
    have h1 := hvc v hvm
    have hvcpos : 0 < v * (pl.getD 0 0 / (pl.getD 0 0 + EPSILON)) :=
      lt_trans EPSILON_pos h1
    have hvpos : 0 < v := by
      rcases mul_pos_iff.mp hvcpos with ⟨h3, _⟩ | ⟨_, h4⟩
      · exact h3
      · exact absurd hc (not_lt.mpr (le_of_lt h4))
    by_contra hle
    push_neg at hle
    have : v * (pl.getD 0 0 / (pl.getD 0 0 + EPSILON)) ≤ EPSILON := by
      calc v * (pl.getD 0 0 / (pl.getD 0 0 + EPSILON)) ≤ v * 1 :=
            mul_le_mul_of_nonneg_left hc1 (le_of_lt hvpos)
        _ = v := mul_one v
        _ ≤ EPSILON := hle
    linarith
  have hret : dailyReturnsOf
      ((runPortfolioSimulation powf sqrtf
        ⟨name, [t], [100], Period.never⟩ A amt
        (some (runSingleAssetSimulation t A amt))).portfolioHistory.map
          Prod.snd) =
      dailyReturnsOf ((runSingleAssetSimulation t A amt).map Prod.snd) := by
    rw [hvals]
    exact dailyReturns_smul _ hc _ hvc hvb
  have hmet := runPortfolio_metrics_eq powf sqrtf
    ⟨name, [t], [100], Period.never⟩ A amt
    (some (runSingleAssetSimulation t A amt))
    (List.cons_ne_nil _ _) hd
    (by
      rintro ⟨q, hq, rfl⟩
      obtain ⟨s, hs, hq2⟩ := List.mem_map.mp hq
      rw [List.mem_singleton.mp hs] at hq2
      rw [priceAt_eq t A pl hpl 0] at hq2
      exact absurd hq2 hp0)
  have h2P : 2 ≤ (runPortfolioSimulation powf sqrtf
      ⟨name, [t], [100], Period.never⟩ A amt
      (some (runSingleAssetSimulation t A amt))).portfolioHistory.length := by
    rw [hPlen]; exact h2
  have h0P : 0 < (runPortfolioSimulation powf sqrtf
      ⟨name, [t], [100], Period.never⟩ A amt
      (some (runSingleAssetSimulation t A amt))).portfolioHistory.length := by
    omega
  have hmem0 : (runPortfolioSimulation powf sqrtf
      ⟨name, [t], [100], Period.never⟩ A amt
      (some (runSingleAssetSimulation t A amt))).portfolioHistory.getD 0
        defaultEntry ∈
      (runPortfolioSimulation powf sqrtf
        ⟨name, [t], [100], Period.never⟩ A amt
        (some (runSingleAssetSimulation t A amt))).portfolioHistory := by
    rw [List.getD_eq_get?, List.get?_eq_get h0P]
    simp only [Option.getD_some]
    exact List.get_mem _ _ _
  have hsP : EPSILON ≤ ((runPortfolioSimulation powf sqrtf
      ⟨name, [t], [100], Period.never⟩ A amt
      (some (runSingleAssetSimulation t A amt))).portfolioHistory.getD 0
        defaultEntry).2 :=
    le_of_lt (hv _ hmem0)
  have hpair := calculateMetrics_beta_alpha powf sqrtf
    (runPortfolioSimulation powf sqrtf ⟨name, [t], [100], Period.never⟩ A amt
      (some (runSingleAssetSimulation t A amt))).portfolioHistory
    (runSingleAssetSimulation t A amt) RISK_FREE_RATE
    h2P hsP (by rw [hret]; exact hdr) (by rw [hblen, hPlen])
    (by rw [hret])
  rw [hret] at hpair
  rw [if_pos hvar] at hpair
  rw [covariance_self, div_self (ne_of_gt (lt_trans EPSILON_pos hvar))]
    at hpair
  have hidx0 : (0 : Nat) < (runSingleAssetSimulation t A amt).length := by
    rw [hblen]; omega
  have hidxl : (runSingleAssetSimulation t A amt).length - 1 <
      (runSingleAssetSimulation t A amt).length := by
    omega
  have hfst0 := getD_fst_map_scale (runSingleAssetSimulation t A amt)
    (pl.getD 0 0 / (pl.getD 0 0 + EPSILON)) 0 hidx0
  have hsnd0 := getD_snd_map_scale (runSingleAssetSimulation t A amt)
    (pl.getD 0 0 / (pl.getD 0 0 + EPSILON)) 0 hidx0
  have hlensame : (runPortfolioSimulation powf sqrtf
      ⟨name, [t], [100], Period.never⟩ A amt
      (some (runSingleAssetSimulation t A amt))).portfolioHistory.length =
      (runSingleAssetSimulation t A amt).length := by
    rw [hblen, hPlen]
  have hsndl := getD_snd_map_scale (runSingleAssetSimulation t A amt)
    (pl.getD 0 0 / (pl.getD 0 0 + EPSILON))
    ((runSingleAssetSimulation t A amt).length - 1) hidxl
  have hfstl := getD_fst_map_scale (runSingleAssetSimulation t A amt)
    (pl.getD 0 0 / (pl.getD 0 0 + EPSILON))
    ((runSingleAssetSimulation t A amt).length - 1) hidxl
  rw [Prod.mk.injEq] at hpair
  obtain ⟨hbeta, halpha⟩ := hpair
  rw [hmet, hprop]
  rw [hprop] at hbeta halpha
  refine ⟨hbeta, ?_⟩
  rw [List.length_map] at halpha
  rw [hfst0, hsnd0, hfstl, hsndl,
    cagrExpr_scale powf _ _ _ _ (ne_of_gt hc)] at halpha
  rw [halpha]
  congr 1
  ring

/-- C8 (amended): a single ticker run both as a 100%-weight `never` portfolio
and as the benchmark yields value trajectories PROPORTIONAL by the factor
`p₀/(p₀ + EPSILON)` (ε-scale close, but not identical — see the
counterexample), and whenever the portfolio values stay above `EPSILON` and
the benchmark return variance exceeds `EPSILON`, beta is exactly 1 and alpha
exactly 0. -/
theorem C8_single_asset_round_trip (powf : ℚ → ℚ → ℚ) (sqrtf : ℚ → ℚ)
    (name t : String) (A : AlignedData) (amt : ℚ) (pl : List ℚ)
    (hpl : lookupPrices A.prices t = some pl)
    (hlen : pl.length = A.dates.length)
    (hpos : ∀ q ∈ pl, 0 < q)
    (hd : A.dates ≠ []) :
    (runPortfolioSimulation powf sqrtf ⟨name, [t], [100], Period.never⟩ A amt
        (some (runSingleAssetSimulation t A amt))).portfolioHistory =
      (runSingleAssetSimulation t A amt).map
        (fun e => (e.1, e.2 * (pl.getD 0 0 / (pl.getD 0 0 + EPSILON)))) ∧
    (∀ (_ : ∀ e ∈ (runPortfolioSimulation powf sqrtf
          ⟨name, [t], [100], Period.never⟩ A amt
          (some (runSingleAssetSimulation t A amt))).portfolioHistory,
          EPSILON < e.2)
      (_ : EPSILON < variance_p (dailyReturnsOf
        ((runSingleAssetSimulation t A amt).map Prod.snd)))
      (_ : 2 ≤ (dailyReturnsOf
        ((runSingleAssetSimulation t A amt).map Prod.snd)).length)
      (_ : 2 ≤ A.dates.length),
      (runPortfolioSimulation powf sqrtf ⟨name, [t], [100], Period.never⟩ A
        amt (some (runSingleAssetSimulation t A amt))).metrics.beta =
          some 1 ∧
      (runPortfolioSimulation powf sqrtf ⟨name, [t], [100], Period.never⟩ A
        amt (some (runSingleAssetSimulation t A amt))).metrics.alpha =
          some 0) :=
  ⟨single_asset_proportional powf sqrtf name t A amt pl hpl hlen hpos hd,
   fun hv hvar hdr h2 =>
     single_asset_beta_alpha powf sqrtf name t A amt pl hpl hlen hpos hd
       hv hvar hdr h2⟩

/-- Counterexample for C8 as literally stated: the value trajectories are NOT
identical — at the very first date the portfolio records
`1000 × 100/(100 + EPSILON)`, the benchmark records `1000`. -/
theorem C8_counterexample :
    (runPortfolioSimulation (fun _ _ => 0) (fun _ => 0)
        ⟨"p", ["A"], [(100 : ℚ)], Period.never⟩
        ⟨[⟨2020, 1, 1⟩, ⟨2020, 1, 2⟩], [("A", [(100 : ℚ), 110])]⟩ 1000
        (some (runSingleAssetSimulation "A"
          ⟨[⟨2020, 1, 1⟩, ⟨2020, 1, 2⟩], [("A", [(100 : ℚ), 110])]⟩
          1000))).portfolioHistory ≠
      runSingleAssetSimulation "A"
        ⟨[⟨2020, 1, 1⟩, ⟨2020, 1, 2⟩], [("A", [(100 : ℚ), 110])]⟩ 1000 := by
  intro h
  have hB : runSingleAssetSimulation "A"
      ⟨[⟨2020, 1, 1⟩, ⟨2020, 1, 2⟩], [("A", [(100 : ℚ), 110])]⟩ 1000 =
      [(⟨2020, 1, 1⟩, (1000 : ℚ)), (⟨2020, 1, 2⟩, 1100)] := by
    norm_num [runSingleAssetSimulation, lookupPrices]
    intro hx
    exact absurd hx (List.cons_ne_nil _ _)
  have hprop := single_asset_proportional (fun _ _ => 0) (fun _ => 0) "p" "A"
    ⟨[⟨2020, 1, 1⟩, ⟨2020, 1, 2⟩], [("A", [(100 : ℚ), 110])]⟩ 1000
    [(100 : ℚ), 110] rfl rfl
    (by intro q hq; fin_cases hq <;> norm_num) (by decide)
  rw [h, hB] at hprop
  norm_num [EPSILON] at hprop

/-- Witness for C8 at a concrete three-date calendar: beta is exactly 1 and
alpha exactly 0. -/
theorem C8_witness :
    (runPortfolioSimulation (fun _ _ => 0) (fun x => x)
        ⟨"p", ["A"], [(100 : ℚ)], Period.never⟩
        ⟨[⟨2020, 1, 1⟩, ⟨2020, 1, 2⟩, ⟨2020, 1, 3⟩],
          [("A", [(100 : ℚ), 110, 99])]⟩ 1000
        (some (runSingleAssetSimulation "A"
          ⟨[⟨2020, 1, 1⟩, ⟨2020, 1, 2⟩, ⟨2020, 1, 3⟩],
            [("A", [(100 : ℚ), 110, 99])]⟩ 1000))).metrics.beta = some 1 ∧
    (runPortfolioSimulation (fun _ _ => 0) (fun x => x)
        ⟨"p", ["A"], [(100 : ℚ)], Period.never⟩
        ⟨[⟨2020, 1, 1⟩, ⟨2020, 1, 2⟩, ⟨2020, 1, 3⟩],
          [("A", [(100 : ℚ), 110, 99])]⟩ 1000
        (some (runSingleAssetSimulation "A"
          ⟨[⟨2020, 1, 1⟩, ⟨2020, 1, 2⟩, ⟨2020, 1, 3⟩],
            [("A", [(100 : ℚ), 110, 99])]⟩ 1000))).metrics.alpha = some 0 := by
  have hB3 : runSingleAssetSimulation "A"
      ⟨[⟨2020, 1, 1⟩, ⟨2020, 1, 2⟩, ⟨2020, 1, 3⟩],
        [("A", [(100 : ℚ), 110, 99])]⟩ 1000 =
      [(⟨2020, 1, 1⟩, (1000 : ℚ)), (⟨2020, 1, 2⟩, 1100),
        (⟨2020, 1, 3⟩, 990)] := by
    norm_num [runSingleAssetSimulation, lookupPrices]
    intro hx
    exact absurd hx (List.cons_ne_nil _ _)
  refine (C8_single_asset_round_trip (fun _ _ => 0) (fun x => x) "p" "A"
    ⟨[⟨2020, 1, 1⟩, ⟨2020, 1, 2⟩, ⟨2020, 1, 3⟩],
      [("A", [(100 : ℚ), 110, 99])]⟩ 1000 [(100 : ℚ), 110, 99] rfl rfl
    (by intro q hq; fin_cases hq <;> norm_num) (by decide)).2
    ?_ ?_ ?_ (by decide)
  · rw [single_asset_proportional (fun _ _ => 0) (fun x => x) "p" "A"
      ⟨[⟨2020, 1, 1⟩, ⟨2020, 1, 2⟩, ⟨2020, 1, 3⟩],
        [("A", [(100 : ℚ), 110, 99])]⟩ 1000 [(100 : ℚ), 110, 99] rfl rfl
      (by intro q hq; fin_cases hq <;> norm_num) (by decide), hB3]
    intro e he
    fin_cases he <;> norm_num [EPSILON]
  · rw [hB3]
    norm_num [dailyReturnsOf, variance_p, EPSILON]
  · rw [hB3]
    norm_num [dailyReturnsOf, EPSILON]
